import Mathlib

/-!
# Workout tracker: draft editing, save-time validation and the stored listing

A shallow embedding of `src/components/WorkoutTracker.jsx`.

* JavaScript strings are lists of characters (`Str`); the model covers texts
  made of Unicode scalar values.
* The React state cells (`currentScreen`, `workouts`, `currentWorkout`, ...)
  are the fields of `AppState`; every handler is a function on that state.
* `window.storage`, `alert` and `console` are part of the state too: the
  store content, the list of alerts raised and the list of console entries.
* The built-ins the component calls (`trim`, `parseInt`, `parseFloat`,
  `JSON.stringify`, `JSON.parse`, `Array.prototype.sort`) are written out
  following ECMA-262; `Date` is a parameter of the handlers that sort.
-/

namespace WorkoutTracker

/-! ## Text and the numeric built-ins -/

/-- A JavaScript string, as the list of its characters. -/
abbrev Str := List Char

/-- The characters `trim`, `parseInt` and `parseFloat` treat as white space
(ECMA-262 `WhiteSpace` and `LineTerminator`). -/
def isStrWhiteSpace (c : Char) : Bool :=
  let n := c.toNat
  n == 0x09 || n == 0x0A || n == 0x0B || n == 0x0C || n == 0x0D || n == 0x20 ||
  n == 0xA0 || n == 0x1680 || (decide (0x2000 ≤ n) && decide (n ≤ 0x200A)) ||
  n == 0x2028 || n == 0x2029 || n == 0x202F || n == 0x205F || n == 0x3000 ||
  n == 0xFEFF

/-- `String.prototype.trimStart`. -/
def trimStart (s : Str) : Str := s.dropWhile isStrWhiteSpace

/-- `String.prototype.trimEnd`. -/
def trimEnd (s : Str) : Str := (s.reverse.dropWhile isStrWhiteSpace).reverse

/-- `String.prototype.trim`. -/
def trim (s : Str) : Str := trimEnd (trimStart s)

/-- The value of `c` as a digit, for digits and letters alike
(`0`-`9`, then `a`/`A` = 10, ..., `z`/`Z` = 35). -/
def digitValue (c : Char) : Option Nat :=
  let n := c.toNat
  if 48 ≤ n ∧ n ≤ 57 then some (n - 48)
  else if 97 ≤ n ∧ n ≤ 122 then some (n - 87)
  else if 65 ≤ n ∧ n ≤ 90 then some (n - 55)
  else none

/-- Whether `c` is a digit of the given radix. -/
def isRadixDigit (radix : Nat) (c : Char) : Bool :=
  match digitValue c with
  | some v => decide (v < radix)
  | none => false

/-- The number a run of radix digits stands for. -/
def digitsValue (radix : Nat) (ds : Str) : Nat :=
  ds.foldl (fun acc c => acc * radix + (digitValue c).getD 0) 0

/-- Whether `c` is one of `0`-`9`. -/
def isDecimalDigit (c : Char) : Bool := isRadixDigit 10 c

/-- Whether the text starts with a minus sign. -/
def startsWithMinus : Str → Bool
  | c :: _ => c == '-'
  | [] => false

/-- The text without one leading `+` or `-`. -/
def dropSign : Str → Str
  | c :: r => if c == '-' || c == '+' then r else c :: r
  | [] => []

/-- The radix `parseInt` picks when called with one argument, and the text
left once a `0x`/`0X` marker is removed. -/
def radixAndRest : Str → Nat × Str
  | c :: x :: r => if c == '0' && (x == 'x' || x == 'X') then (16, r) else (10, c :: x :: r)
  | s => (10, s)

/-- `parseInt(s)` with no radix argument (ECMA-262 19.2.5): leading white
space is skipped, an optional sign is read, a `0x` marker selects base 16,
and the longest run of digits that follows is the result; `none` is `NaN`.

The result is the exact integer. JavaScript rounds it to a double, which
keeps its sign and keeps zero apart from nonzero, so the comparison
`parseInt(s) <= 0` of the source is decided by the exact value. -/
def parseInt (s : Str) : Option Int :=
  let s1 := trimStart s
  let body := radixAndRest (dropSign s1)
  let z := body.2.takeWhile (isRadixDigit body.1)
  if z.isEmpty then none
  else if startsWithMinus s1 then some (-(digitsValue body.1 z : Int))
  else some (digitsValue body.1 z : Int)

/-- A JavaScript number as far as `parseFloat` and a comparison with zero
need it: `NaN`, an infinity, or the exact decimal `± mant * 10 ^ exp` that
the text denotes (before it is rounded to a double). -/
inductive JsNum where
  | nan
  | inf (neg : Bool)
  | dec (neg : Bool) (mant : Nat) (exp : Int)
  deriving DecidableEq, Repr

/-- Whether the decimal `mant * 10 ^ exp` rounds to the double zero under
round-to-nearest, ties to even: it does exactly when it is at most
`2 ^ (-1075)`, half the least positive double. -/
def roundsToZero (mant : Nat) (exp : Int) : Bool :=
  if 0 ≤ exp then mant == 0
  else decide (mant * 2 ^ 1075 ≤ 10 ^ exp.natAbs)

/-- The comparison `x < 0` on doubles: false for `NaN` and for both zeros. -/
def JsNum.ltZero : JsNum → Bool
  | .nan => false
  | .inf neg => neg
  | .dec neg mant exp => neg && !roundsToZero mant exp

/-- The comparison `x >= 0` on doubles: false for `NaN`, true for both zeros. -/
def JsNum.geZero : JsNum → Bool
  | .nan => false
  | .inf neg => !neg
  | .dec neg mant exp => !neg || roundsToZero mant exp

/-- The text `Infinity`. -/
def infinityText : Str := ['I', 'n', 'f', 'i', 'n', 'i', 't', 'y']

/-- The exponent part that follows the mantissa of a decimal literal, if any:
`e` or `E`, an optional sign and at least one digit. Without digits there is
no exponent part and the literal ends before the `e`. -/
def exponentPart : Str → Int
  | c :: r =>
    if c == 'e' || c == 'E' then
      let ds := (dropSign r).takeWhile isDecimalDigit
      if ds.isEmpty then 0
      else if startsWithMinus r then -(digitsValue 10 ds : Int)
      else (digitsValue 10 ds : Int)
    else 0
  | [] => 0

/-- `parseFloat(s)` (ECMA-262 19.2.4): leading white space is skipped and the
longest prefix that is a `StrDecimalLiteral` is the result: an optional sign,
then `Infinity` or digits with an optional fraction and exponent. -/
def parseFloat (s : Str) : JsNum :=
  let s1 := trimStart s
  let neg := startsWithMinus s1
  let s2 := dropSign s1
  if infinityText.isPrefixOf s2 then .inf neg
  else
    let ip := s2.takeWhile isDecimalDigit
    let r1 := s2.dropWhile isDecimalDigit
    let fp := match r1 with
      | c :: r => if c == '.' then r.takeWhile isDecimalDigit else []
      | [] => []
    let r2 := match r1 with
      | c :: r => if c == '.' then r.dropWhile isDecimalDigit else r1
      | [] => []
    if ip.isEmpty && fp.isEmpty then .nan
    else .dec neg (digitsValue 10 (ip ++ fp)) (exponentPart r2 - fp.length)

/-- `n.toString()` for a non-negative integer such as `Date.now()`. -/
def natToString (n : Nat) : Str := (Nat.repr n).toList

/-! ## The draft and its editing operations -/

/-- One set of an exercise: the raw texts of the two number inputs. -/
structure SetEntry where
  reps : Str
  weight : Str
  deriving DecidableEq, Repr

/-- One exercise of a workout. -/
structure Exercise where
  id : Str
  name : Str
  sets : List SetEntry
  deriving DecidableEq, Repr

/-- A workout: the draft being edited and the record that is saved. -/
structure Workout where
  id : Str
  date : Str
  exercises : List Exercise
  deriving DecidableEq, Repr

/-- The two fields of a set that `updateSet` is called with. -/
inductive SetField where
  | reps
  | weight
  deriving DecidableEq, Repr

/-- `xs.map((x, idx) => f(x, idx))`, counting from `i`. -/
def mapIdxFrom {α β : Type} (f : α → Nat → β) : Nat → List α → List β
  | _, [] => []
  | i, a :: as => f a i :: mapIdxFrom f (i + 1) as

/-- `xs.map((x, idx) => f(x, idx))`. -/
def mapWithIndex {α β : Type} (f : α → Nat → β) (xs : List α) : List β :=
  mapIdxFrom f 0 xs

/-- The set literal `{ reps: '', weight: '' }`. -/
def emptySet : SetEntry := { reps := [], weight := [] }

/-- The draft `startNewWorkout` creates; `now` is the reading of `Date.now()`
and `isoNow` the text of `new Date().toISOString()`. -/
def newDraft (now : Nat) (isoNow : Str) : Workout :=
  { id := natToString now, date := isoNow, exercises := [] }

/-- The updater of `addExercise`; `now` is the reading of `Date.now()`. -/
def addExercise (now : Nat) (prev : Workout) : Workout :=
  { prev with
    exercises := prev.exercises ++
      [{ id := natToString now, name := [], sets := [emptySet] }] }

/-- The updater of `updateExerciseName`. -/
def updateExerciseName (exerciseId name : Str) (prev : Workout) : Workout :=
  { prev with
    exercises := prev.exercises.map fun ex =>
      if ex.id = exerciseId then { ex with name := name } else ex }

/-- The object literal `{ ...set, [field]: value }`. -/
def SetEntry.withField (st : SetEntry) (field : SetField) (value : Str) : SetEntry :=
  match field with
  | .reps => { st with reps := value }
  | .weight => { st with weight := value }

/-- The callback `updateSet` maps over the exercises: the exercise with the
given id gets the set at `setIndex` rewritten, every other one is returned as
it is. -/
def updatedExercise (exerciseId : Str) (setIndex : Nat) (field : SetField) (value : Str)
    (ex : Exercise) : Exercise :=
  if ex.id = exerciseId then
    { ex with
      sets := mapWithIndex
        (fun st idx => if idx = setIndex then st.withField field value else st) ex.sets }
  else ex

/-- The updater of `updateSet`. -/
def updateSet (exerciseId : Str) (setIndex : Nat) (field : SetField) (value : Str)
    (prev : Workout) : Workout :=
  { prev with exercises := prev.exercises.map (updatedExercise exerciseId setIndex field value) }

/-- The updater of `addSet`. -/
def addSet (exerciseId : Str) (prev : Workout) : Workout :=
  { prev with
    exercises := prev.exercises.map fun ex =>
      if ex.id = exerciseId then { ex with sets := ex.sets ++ [emptySet] } else ex }

/-- The updater of `removeExercise`. -/
def removeExercise (exerciseId : Str) (prev : Workout) : Workout :=
  { prev with exercises := prev.exercises.filter fun ex => ex.id ≠ exerciseId }

/-- One editing call on a draft. -/
inductive DraftOp where
  | addExercise (now : Nat)
  | updateExerciseName (exerciseId name : Str)
  | updateSet (exerciseId : Str) (setIndex : Nat) (field : SetField) (value : Str)
  | addSet (exerciseId : Str)
  | removeExercise (exerciseId : Str)
  deriving DecidableEq, Repr

/-- The effect of one editing call. -/
def DraftOp.apply : DraftOp → Workout → Workout
  | .addExercise now => WorkoutTracker.addExercise now
  | .updateExerciseName i n => WorkoutTracker.updateExerciseName i n
  | .updateSet i k f v => WorkoutTracker.updateSet i k f v
  | .addSet i => WorkoutTracker.addSet i
  | .removeExercise i => WorkoutTracker.removeExercise i

/-- The effect of a sequence of editing calls, first call first. -/
def runOps (ops : List DraftOp) (d : Workout) : Workout :=
  ops.foldl (fun acc op => op.apply acc) d

/-- The clock readings the `addExercise` calls of a sequence take, in order. -/
def clockReadings : List DraftOp → List Nat
  | [] => []
  | .addExercise now :: ops => now :: clockReadings ops
  | _ :: ops => clockReadings ops

/-! ## Save-time validation -/

/-- The four alerts of `validateAndSaveWorkout`. -/
inductive ValidationError where
  | NoExercises
  | MissingExerciseName
  | InvalidReps
  | InvalidWeight
  deriving DecidableEq, Repr

/-- The text passed to `alert`. -/
def ValidationError.message : ValidationError → String
  | .NoExercises => "Please add at least one exercise"
  | .MissingExerciseName => "Please enter exercise name"
  | .InvalidReps => "Reps must be greater than 0"
  | .InvalidWeight => "Weight must be 0 or greater"

/-- The test `!exercise.name.trim()`. -/
def nameMissing (ex : Exercise) : Bool := (trim ex.name).isEmpty

/-- The test `!set.reps || parseInt(set.reps) <= 0`. -/
def repsInvalid (st : SetEntry) : Bool :=
  st.reps.isEmpty ||
    (match parseInt st.reps with
     | some n => decide (n ≤ 0)
     | none => false)

/-- The test `set.weight && parseFloat(set.weight) < 0`. -/
def weightInvalid (st : SetEntry) : Bool :=
  !st.weight.isEmpty && (parseFloat st.weight).ltZero

/-- The inner loop `for (const set of exercise.sets)`: the first alert it
raises, if any. -/
def checkSets : List SetEntry → Option ValidationError
  | [] => none
  | st :: rest =>
    if repsInvalid st then some .InvalidReps
    else if weightInvalid st then some .InvalidWeight
    else checkSets rest

/-- The outer loop `for (const exercise of currentWorkout.exercises)`: the
first alert it raises, if any. -/
def checkExercises : List Exercise → Option ValidationError
  | [] => none
  | ex :: rest =>
    if nameMissing ex then some .MissingExerciseName
    else
      match checkSets ex.sets with
      | some e => some e
      | none => checkExercises rest

/-- The checks of `validateAndSaveWorkout` that come before the save: the
alert raised before the early `return`, or `none` when the save is reached. -/
def validationAlert (d : Workout) : Option ValidationError :=
  if d.exercises.length = 0 then some .NoExercises
  else checkExercises d.exercises

/-! ## JSON values, `JSON.stringify` and `JSON.parse` -/

/-- A value `JSON.parse` can return. A number is kept as the exact decimal
`± mant * 10 ^ exp` its text denotes. -/
inductive JVal where
  | null
  | bool (b : Bool)
  | num (neg : Bool) (mant : Nat) (exp : Int)
  | str (s : Str)
  | arr (items : List JVal)
  | obj (members : List (Str × JVal))

/-- The double quote. -/
def cQuote : Char := Char.ofNat 34

/-- The backslash. -/
def cBackslash : Char := Char.ofNat 92

/-- The opening brace. -/
def cLBrace : Char := Char.ofNat 123

/-- The closing brace. -/
def cRBrace : Char := Char.ofNat 125

/-- The lower-case hexadecimal digit of a value below 16. -/
def hexDigit (n : Nat) : Char :=
  if n < 10 then Char.ofNat (48 + n) else Char.ofNat (87 + n)

/-- How `JSON.stringify` writes one character of a string (ECMA-262
`QuoteJSONString`): the short escapes, `\u00XX` for the other control
characters, and the character itself otherwise. -/
def escapeChar (c : Char) : Str :=
  let n := c.toNat
  if n = 8 then [cBackslash, 'b']
  else if n = 9 then [cBackslash, 't']
  else if n = 10 then [cBackslash, 'n']
  else if n = 12 then [cBackslash, 'f']
  else if n = 13 then [cBackslash, 'r']
  else if n = 34 then [cBackslash, cQuote]
  else if n = 92 then [cBackslash, cBackslash]
  else if n < 32 then [cBackslash, 'u', '0', '0', hexDigit (n / 16), hexDigit (n % 16)]
  else [c]

/-- The characters of a string, each written as `JSON.stringify` writes it. -/
def escapeChars : Str → Str
  | [] => []
  | c :: r => escapeChar c ++ escapeChars r

/-- `JSON.stringify(s)` for a string `s`. -/
def quoteJSON (s : Str) : Str := cQuote :: (escapeChars s ++ [cQuote])

/-- The texts of the items of an array, separated by commas. -/
def joinComma : List Str → Str
  | [] => []
  | [x] => x
  | x :: y :: r => x ++ ',' :: joinComma (y :: r)

/-- `JSON.stringify(set)` for `{ reps, weight }`. -/
def stringifySet (st : SetEntry) : Str :=
  cLBrace :: (quoteJSON ['r', 'e', 'p', 's'] ++ ':' :: quoteJSON st.reps ++
    ',' :: quoteJSON ['w', 'e', 'i', 'g', 'h', 't'] ++ ':' :: quoteJSON st.weight ++ [cRBrace])

/-- `JSON.stringify(exercise)` for `{ id, name, sets }`. -/
def stringifyExercise (ex : Exercise) : Str :=
  cLBrace :: (quoteJSON ['i', 'd'] ++ ':' :: quoteJSON ex.id ++
    ',' :: quoteJSON ['n', 'a', 'm', 'e'] ++ ':' :: quoteJSON ex.name ++
    ',' :: quoteJSON ['s', 'e', 't', 's'] ++ ':' :: '[' ::
      (joinComma (ex.sets.map stringifySet) ++ [']', cRBrace]))

/-- `JSON.stringify(workout)` for `{ id, date, exercises }`. -/
def stringifyWorkout (w : Workout) : Str :=
  cLBrace :: (quoteJSON ['i', 'd'] ++ ':' :: quoteJSON w.id ++
    ',' :: quoteJSON ['d', 'a', 't', 'e'] ++ ':' :: quoteJSON w.date ++
    ',' :: quoteJSON ['e', 'x', 'e', 'r', 'c', 'i', 's', 'e', 's'] ++ ':' :: '[' ::
      (joinComma (w.exercises.map stringifyExercise) ++ [']', cRBrace]))

/-- The set as a JavaScript value: an object with two string properties. -/
def SetEntry.toJVal (st : SetEntry) : JVal :=
  .obj [(['r', 'e', 'p', 's'], .str st.reps), (['w', 'e', 'i', 'g', 'h', 't'], .str st.weight)]

/-- The exercise as a JavaScript value. -/
def Exercise.toJVal (ex : Exercise) : JVal :=
  .obj [(['i', 'd'], .str ex.id), (['n', 'a', 'm', 'e'], .str ex.name),
    (['s', 'e', 't', 's'], .arr (ex.sets.map SetEntry.toJVal))]

/-- The workout as a JavaScript value. -/
def Workout.toJVal (w : Workout) : JVal :=
  .obj [(['i', 'd'], .str w.id), (['d', 'a', 't', 'e'], .str w.date),
    (['e', 'x', 'e', 'r', 'c', 'i', 's', 'e', 's'], .arr (w.exercises.map Exercise.toJVal))]

/-- JSON white space: space, tab, line feed, carriage return. -/
def isJsonWhiteSpace (c : Char) : Bool :=
  c.toNat == 32 || c.toNat == 9 || c.toNat == 10 || c.toNat == 13

/-- The text without its leading JSON white space. -/
def skipWs (s : Str) : Str := s.dropWhile isJsonWhiteSpace

/-- The value of a hexadecimal digit. -/
def hexValue (c : Char) : Option Nat :=
  match digitValue c with
  | some v => if v < 16 then some v else none
  | none => none

/-- The value of four hexadecimal digits. -/
def hex4 (a b c d : Char) : Option Nat :=
  match hexValue a, hexValue b, hexValue c, hexValue d with
  | some x, some y, some z, some w => some (((x * 16 + y) * 16 + z) * 16 + w)
  | _, _, _, _ => none

/-- The character a one-letter escape stands for. -/
def simpleEscape (e : Char) : Option Char :=
  let n := e.toNat
  if n = 34 then some cQuote
  else if n = 92 then some cBackslash
  else if n = 47 then some '/'
  else if n = 98 then some (Char.ofNat 8)
  else if n = 102 then some (Char.ofNat 12)
  else if n = 110 then some (Char.ofNat 10)
  else if n = 114 then some (Char.ofNat 13)
  else if n = 116 then some (Char.ofNat 9)
  else none

/-- Puts a character in front of the string of a parse result. -/
def consChar (c : Char) (p : Option (Str × Str)) : Option (Str × Str) :=
  match p with
  | some (s, rest) => some (c :: s, rest)
  | none => none

/-- The body of a JSON string, read after its opening quote: the string and
the text after the closing quote. A `\u` escape of a surrogate pair gives one
character. An escape of an unpaired surrogate, which `JSON.parse` accepts, has
no counterpart in `Str`: the result `none` there does not stand for a
`SyntaxError`, and such texts are set apart by `hasSurrogateEscape`. -/
def parseChars : Str → Option (Str × Str)
  | [] => none
  | c :: r =>
    if c.toNat = 34 then some ([], r)
    else if c.toNat = 92 then
      match r with
      | [] => none
      | e :: r1 =>
        if e.toNat = 117 then
          match r1 with
          | a :: b :: c2 :: d :: r2 =>
            match hex4 a b c2 d with
            | none => none
            | some n =>
              if n < 0xD800 ∨ 0xDFFF < n then consChar (Char.ofNat n) (parseChars r2)
              else if n < 0xDC00 then
                match r2 with
                | s1 :: s2 :: a1 :: b1 :: c1 :: d1 :: r3 =>
                  if s1.toNat = 92 ∧ s2.toNat = 117 then
                    match hex4 a1 b1 c1 d1 with
                    | some lo =>
                      if 0xDC00 ≤ lo ∧ lo ≤ 0xDFFF then
                        consChar (Char.ofNat (0x10000 + (n - 0xD800) * 0x400 + (lo - 0xDC00)))
                          (parseChars r3)
                      else none
                    | none => none
                  else none
                | _ => none
              else none
          | _ => none
        else
          match simpleEscape e with
          | some ch => consChar ch (parseChars r1)
          | none => none
    else if c.toNat < 32 then none
    else consChar c (parseChars r)

/-- The integer part of a JSON number: a single `0`, or digits that do not
start with `0`; the digits and the text after them. -/
def takeIntPart : Str → Str × Str
  | c :: r =>
    if c.toNat = 48 then ([c], r)
    else ((c :: r).takeWhile isDecimalDigit, (c :: r).dropWhile isDecimalDigit)
  | [] => ([], [])

/-- The fraction of a JSON number, if the text starts with one: a `.` must be
followed by a digit. `none` is a syntax error. -/
def takeFraction : Str → Option (Str × Str)
  | c :: r =>
    if c.toNat = 46 then
      if (r.takeWhile isDecimalDigit).isEmpty then none
      else some (r.takeWhile isDecimalDigit, r.dropWhile isDecimalDigit)
    else some ([], c :: r)
  | [] => some ([], [])

/-- The exponent of a JSON number, if the text starts with one: `e` or `E`
must be followed by an optional sign and a digit. `none` is a syntax error. -/
def takeExponent : Str → Option (Int × Str)
  | c :: r =>
    if c.toNat = 101 ∨ c.toNat = 69 then
      let ds := (dropSign r).takeWhile isDecimalDigit
      if ds.isEmpty then none
      else if startsWithMinus r then
        some (-(digitsValue 10 ds : Int), (dropSign r).dropWhile isDecimalDigit)
      else some ((digitsValue 10 ds : Int), (dropSign r).dropWhile isDecimalDigit)
    else some (0, c :: r)
  | [] => some (0, [])

/-- A JSON number at the start of the text. -/
def parseNumber (s : Str) : Option (JVal × Str) :=
  let neg := startsWithMinus s
  let body := if neg then s.tail else s
  let ip := takeIntPart body
  if ip.1.isEmpty then none
  else
    match takeFraction ip.2 with
    | none => none
    | some (fp, r2) =>
      match takeExponent r2 with
      | none => none
      | some (e, r3) => some (.num neg (digitsValue 10 (ip.1 ++ fp)) (e - fp.length), r3)

mutual

/-- A JSON value at the start of the text, after optional white space: the
value and the text after it. The first argument bounds the number of nested
calls; `JSON.parse` passes more than the text can use. -/
def parseValue : Nat → Str → Option (JVal × Str)
  | 0, _ => none
  | fuel + 1, cs =>
    match skipWs cs with
    | [] => none
    | c :: r =>
      if c.toNat = 34 then
        match parseChars r with
        | some (s, rest) => some (.str s, rest)
        | none => none
      else if c.toNat = 91 then
        match skipWs r with
        | [] => none
        | c2 :: r2 =>
          if c2.toNat = 93 then some (.arr [], r2)
          else
            match parseElements fuel (c2 :: r2) with
            | some (items, rest) => some (.arr items, rest)
            | none => none
      else if c.toNat = 123 then
        match skipWs r with
        | [] => none
        | c2 :: r2 =>
          if c2.toNat = 125 then some (.obj [], r2)
          else
            match parseMembers fuel (c2 :: r2) with
            | some (members, rest) => some (.obj members, rest)
            | none => none
      else if ['t', 'r', 'u', 'e'].isPrefixOf (c :: r) then some (.bool true, (c :: r).drop 4)
      else if ['f', 'a', 'l', 's', 'e'].isPrefixOf (c :: r) then
        some (.bool false, (c :: r).drop 5)
      else if ['n', 'u', 'l', 'l'].isPrefixOf (c :: r) then some (.null, (c :: r).drop 4)
      else parseNumber (c :: r)

/-- The items of a non-empty array up to and including the closing bracket. -/
def parseElements : Nat → Str → Option (List JVal × Str)
  | 0, _ => none
  | fuel + 1, cs =>
    match parseValue fuel cs with
    | none => none
    | some (v, r) =>
      match skipWs r with
      | [] => none
      | c :: r1 =>
        if c.toNat = 44 then
          match parseElements fuel r1 with
          | some (items, rest) => some (v :: items, rest)
          | none => none
        else if c.toNat = 93 then some ([v], r1)
        else none

/-- The members of a non-empty object up to and including the closing brace. -/
def parseMembers : Nat → Str → Option (List (Str × JVal) × Str)
  | 0, _ => none
  | fuel + 1, cs =>
    match skipWs cs with
    | [] => none
    | c :: r =>
      if c.toNat = 34 then
        match parseChars r with
        | none => none
        | some (k, r1) =>
          match skipWs r1 with
          | [] => none
          | c1 :: r2 =>
            if c1.toNat = 58 then
              match parseValue fuel r2 with
              | none => none
              | some (v, r3) =>
                match skipWs r3 with
                | [] => none
                | c3 :: r4 =>
                  if c3.toNat = 44 then
                    match parseMembers fuel r4 with
                    | some (members, rest) => some ((k, v) :: members, rest)
                    | none => none
                  else if c3.toNat = 125 then some ([(k, v)], r4)
                  else none
            else none
      else none

end

/-- `JSON.parse(text)`. A result `some v` is the value `JSON.parse` returns.
On a text without a `\u` escape of a surrogate (`hasSurrogateEscape`) the
result `none` is the `SyntaxError` it throws; on a text with such an escape
`none` may also mean that the value holds a string `Str` cannot hold. The
fuel `text.length + 1` is never used up on a JSON text: every nested call
follows a character of its own that has been read. -/
def jsonParse (text : Str) : Option JVal :=
  match parseValue (text.length + 1) text with
  | some (v, rest) => if (skipWs rest).isEmpty then some v else none
  | none => none

/-- Whether the text starts with `u` and four hexadecimal digits that name a
surrogate code unit (`D800` to `DFFF`). -/
def surrogateCodeAhead : Str → Bool
  | u :: a :: b :: c :: d :: _ =>
    decide (u.toNat = 117) &&
      (match hex4 a b c d with
       | some n => decide (0xD800 ≤ n) && decide (n ≤ 0xDFFF)
       | none => false)
  | _ => false

/-- Whether a backslash followed by `u` and the code of a surrogate stands
anywhere in the text. Without one, `parseChars` never meets a surrogate and
`jsonParse` is `JSON.parse` exactly. -/
def hasSurrogateEscape : Str → Bool
  | [] => false
  | c :: r => (decide (c.toNat = 92) && surrogateCodeAhead r) || hasSurrogateEscape r

/-- A text that `JSON.parse` rejects with a `SyntaxError`: it does not parse,
and it has no surrogate escape, so that the failure is not one of the model's
own. -/
def RejectedByJsonParse (text : Str) : Prop :=
  hasSurrogateEscape text = false ∧ jsonParse text = none

/-- The test `w !== null`. -/
def JVal.isNull : JVal → Bool
  | .null => true
  | _ => false

/-- The property read `v[k]` for the names the component reads (`id`,
`date`); `none` is `undefined`. Of two members with one name `JSON.parse`
keeps the later. -/
def JVal.getField (k : Str) : JVal → Option JVal
  | .obj members =>
    match members.reverse.find? (fun m => m.1 == k) with
    | some m => some m.2
    | none => none
  | _ => none

/-- The string a value is, if it is one. -/
def JVal.asStr : JVal → Option Str
  | .str s => some s
  | _ => none

/-! ## The key-value store, `Date` and the component state -/

/-- The collaborator `window.storage`: the stored key-value pairs, and for
each of its four calls whether the backend currently fails it. -/
structure Storage where
  entries : List (Str × Str)
  listFails : Bool
  getFails : Bool
  setFails : Bool
  deleteFails : Bool
  deriving DecidableEq, Repr

/-- `storage.list(pre)`: the stored keys that start with `pre`; `none` is a
rejected call. -/
def Storage.list (st : Storage) (pre : Str) : Option (List Str) :=
  if st.listFails then none
  else some ((st.entries.map Prod.fst).filter fun k => pre.isPrefixOf k)

/-- `storage.get(key)`: `some (some v)` is `{ value: v }`, `some none` is the
absent result `null`, and `none` is a rejected call. -/
def Storage.get (st : Storage) (key : Str) : Option (Option Str) :=
  if st.getFails then none
  else
    match st.entries.find? (fun e => e.1 == key) with
    | some e => some (some e.2)
    | none => some none

/-- The entries after a write: the value under `key` is replaced where the
key is stored, and the pair is added at the end otherwise. -/
def setEntry (key value : Str) : List (Str × Str) → List (Str × Str)
  | [] => [(key, value)]
  | e :: rest => if e.1 = key then (key, value) :: rest else e :: setEntry key value rest

/-- `storage.set(key, value)`; `none` is a rejected call, which writes
nothing. -/
def Storage.set (st : Storage) (key value : Str) : Option Storage :=
  if st.setFails then none
  else some { st with entries := setEntry key value st.entries }

/-- `storage.delete(key)`: removes the key; a key that is not stored is left
as it is, without an error. `none` is a rejected call. -/
def Storage.delete (st : Storage) (key : Str) : Option Storage :=
  if st.deleteFails then none
  else some { st with entries := st.entries.filter fun e => e.1 ≠ key }

/-- A store whose calls all succeed. -/
def Storage.reliable (st : Storage) : Prop :=
  st.listFails = false ∧ st.getFails = false ∧ st.setFails = false ∧ st.deleteFails = false

/-- The store is a map: no key is stored twice. -/
def Storage.isMap (st : Storage) : Prop := (st.entries.map Prod.fst).Nodup

/-- The built-in `Date` as the component uses it: the time value in
milliseconds of `new Date(x)`, where the argument `none` is `undefined` and
the result `none` is the `NaN` of an invalid date. -/
abbrev DateFn := Option JVal → Option Int

/-- The name of the property `date`. -/
def dateName : Str := ['d', 'a', 't', 'e']

/-- The name of the property `id`. -/
def idName : Str := ['i', 'd']

/-- The time value of `new Date(w.date)`. -/
def dateValue (D : DateFn) (w : JVal) : Option Int := D (w.getField dateName)

/-- The comparator `(a, b) => new Date(b.date) - new Date(a.date)` as the sort
reads it: whether `a` may stand before `b`, which is whether the comparator's
result is not above zero. A `NaN` result counts as zero. -/
def mayPrecede (D : DateFn) (a b : JVal) : Bool :=
  match dateValue D a, dateValue D b with
  | some ta, some tb => decide (tb - ta ≤ 0)
  | _, _ => true

/-- `xs.sort((a, b) => new Date(b.date) - new Date(a.date))`.
`Array.prototype.sort` is stable; for a consistent comparator its result is
the one stable ordering, which insertion sort computes. With invalid dates
among valid ones the comparator is inconsistent and the order is left to the
engine: of that case only the content of the result is used below. -/
def sortByDateDesc (D : DateFn) (xs : List JVal) : List JVal :=
  xs.insertionSort fun a b => mayPrecede D a b = true

/-- The key prefix `'workout:'`. -/
def workoutPrefix : Str := ['w', 'o', 'r', 'k', 'o', 'u', 't', ':']

/-- The key of a workout: the template string with `workout:` before the id. -/
def workoutKey (id : Str) : Str := workoutPrefix ++ id

/-- The three screens. -/
inductive Screen where
  | home
  | newWorkout
  | detail
  deriving DecidableEq, Repr

/-- The entries the component writes to the console, one per `catch`. -/
inductive ConsoleEntry where
  | loadError
  | saveError
  | deleteError
  deriving DecidableEq, Repr

/-- The state of the component together with what it acts on: the six state
cells, the store, the alerts shown and the console. -/
structure AppState where
  currentScreen : Screen
  workouts : List JVal
  currentWorkout : Option Workout
  selectedWorkout : Option JVal
  showDeleteModal : Bool
  workoutToDelete : Option JVal
  storage : Storage
  alerts : List String
  console : List ConsoleEntry

/-- The callback of `result.keys.map`: `null` for an absent key, the parsed
value otherwise; `none` is a rejected promise (the `get` failed, or
`JSON.parse` threw). -/
def fetchWorkout (st : Storage) (key : Str) : Option JVal :=
  match st.get key with
  | none => none
  | some none => some .null
  | some (some value) => jsonParse value

/-- The `await Promise.all(workoutPromises)`: the results in key order, or
`none` when one of the promises is rejected. -/
def fetchAll (st : Storage) : List Str → Option (List JVal)
  | [] => some []
  | key :: keys =>
    match fetchWorkout st key with
    | none => none
    | some w =>
      match fetchAll st keys with
      | none => none
      | some ws => some (w :: ws)

/-- The listing `loadWorkouts` computes from a store: the fetched values that
are not `null`, sorted; `none` when a call fails or a value does not parse. -/
def loadedListing (D : DateFn) (st : Storage) : Option (List JVal) :=
  match st.list workoutPrefix with
  | none => none
  | some keys =>
    match fetchAll st keys with
    | none => none
    | some loaded => some (sortByDateDesc D (loaded.filter fun w => !w.isNull))

/-- The handler `loadWorkouts`: on success the listing is replaced; an error
anywhere in the `try` block is caught, logged, and leaves the state as it is.
A successful `list` always returns an object with `keys`, so the guard
`result && result.keys` holds. -/
def loadWorkouts (D : DateFn) (s : AppState) : AppState :=
  match loadedListing D s.storage with
  | some listing => { s with workouts := listing }
  | none => { s with console := s.console ++ [.loadError] }

/-- The handler `saveWorkout`: a failed write is caught and logged; after a
successful write the listing is reloaded. -/
def saveWorkout (D : DateFn) (workout : Workout) (s : AppState) : AppState :=
  match s.storage.set (workoutKey workout.id) (stringifyWorkout workout) with
  | none => { s with console := s.console ++ [.saveError] }
  | some st => loadWorkouts D { s with storage := st }

/-- The handler `deleteWorkout`: a failed delete is caught and logged; after
a successful one the listing is reloaded and the modal is closed. -/
def deleteWorkout (D : DateFn) (workoutId : Str) (s : AppState) : AppState :=
  match s.storage.delete (workoutKey workoutId) with
  | none => { s with console := s.console ++ [.deleteError] }
  | some st =>
    let s1 := loadWorkouts D { s with storage := st }
    { s1 with showDeleteModal := false, workoutToDelete := none }

/-- The handler `startNewWorkout`; `now` is the reading of `Date.now()` and
`isoNow` the text of `new Date().toISOString()`. -/
def startNewWorkout (now : Nat) (isoNow : Str) (s : AppState) : AppState :=
  { s with currentWorkout := some (newDraft now isoNow), currentScreen := .newWorkout }

/-- The handler `validateAndSaveWorkout` for the current draft `d`: the first
failed check raises its alert and returns; otherwise the draft is handed to
`saveWorkout`, the home screen is shown and the draft cell is cleared. -/
def validateAndSave (D : DateFn) (d : Workout) (s : AppState) : AppState :=
  match validationAlert d with
  | some e => { s with alerts := s.alerts ++ [e.message] }
  | none =>
    let s1 := saveWorkout D d s
    { s1 with currentScreen := .home, currentWorkout := none }

/-- The handler `validateAndSaveWorkout`. It reads `currentWorkout.exercises`
first, so without a draft it throws a `TypeError`: the result `none`. -/
def validateAndSaveWorkout (D : DateFn) (s : AppState) : Option AppState :=
  match s.currentWorkout with
  | none => none
  | some d => some (validateAndSave D d s)

/-- The state of the component when it is mounted on a store. -/
def initialState (st : Storage) : AppState :=
  { currentScreen := .home, workouts := [], currentWorkout := none, selectedWorkout := none,
    showDeleteModal := false, workoutToDelete := none, storage := st, alerts := [],
    console := [] }

/-! ## A `Date` for the examples -/

/-- The value of a run of decimal digits, or `none` if a character is not a
digit. -/
def decimalField (ds : Str) : Option Nat :=
  if ds.all isDecimalDigit then some (digitsValue 10 ds) else none

/-- Whether the year is a leap year. -/
def isLeapYear (y : Nat) : Bool := (y % 4 == 0 && y % 100 != 0) || y % 400 == 0

/-- The number of days of a month. -/
def daysInMonth (y m : Nat) : Nat :=
  if m = 2 then (if isLeapYear y then 29 else 28)
  else if m = 4 ∨ m = 6 ∨ m = 9 ∨ m = 11 then 30
  else 31

/-- The days from 1970-01-01 to the given civil date. -/
def daysFromCivil (y m d : Nat) : Int :=
  let yy : Int := if m ≤ 2 then (y : Int) - 1 else y
  let era : Int := yy / 400
  let yoe : Int := yy - era * 400
  let mp : Int := if m ≤ 2 then (m : Int) + 9 else (m : Int) - 3
  let doy : Int := (153 * mp + 2) / 5 + (d : Int) - 1
  let doe : Int := yoe * 365 + yoe / 4 - yoe / 100 + doy
  era * 146097 + doe - 719468

/-- The time value of a text in the format `toISOString` writes,
`YYYY-MM-DDTHH:mm:ss.sssZ`, for a real calendar date and time of day. -/
def isoMillis (s : Str) : Option Int :=
  match s with
  | [y1, y2, y3, y4, a, m1, m2, b, d1, d2, t, h1, h2, c, n1, n2, e, s1, s2, f, f1, f2, f3, z] =>
    if a = '-' ∧ b = '-' ∧ t = 'T' ∧ c = ':' ∧ e = ':' ∧ f = '.' ∧ z = 'Z' then
      match decimalField [y1, y2, y3, y4], decimalField [m1, m2], decimalField [d1, d2],
        decimalField [h1, h2], decimalField [n1, n2], decimalField [s1, s2],
        decimalField [f1, f2, f3] with
      | some y, some m, some d, some h, some n, some sec, some ms =>
        if 1 ≤ m ∧ m ≤ 12 ∧ 1 ≤ d ∧ d ≤ daysInMonth y m ∧ h ≤ 23 ∧ n ≤ 59 ∧ sec ≤ 59 then
          some (daysFromCivil y m d * 86400000 +
            ((h * 3600000 + n * 60000 + sec * 1000 + ms : Nat) : Int))
        else none
      | _, _, _, _, _, _, _ => none
    else none
  | _ => none

/-- A `Date` that reads the texts `toISOString` writes and takes every other
argument for an invalid date; the examples below use it on such texts only. -/
def isoDate : DateFn
  | some (.str s) => isoMillis s
  | _ => none

/-! ## The wording of the specification, for comparison with the code -/

/-- The integer a text denotes as a whole, in the sense of the specification:
an optional sign followed by decimal digits and nothing else. -/
def wholeInteger (s : Str) : Option Int :=
  let ds := dropSign s
  if !ds.isEmpty && ds.all isDecimalDigit then
    some (if startsWithMinus s then -(digitsValue 10 ds : Int) else (digitsValue 10 ds : Int))
  else none

/-- The first entry of a list that holds a value. -/
def firstSome {α : Type} : List (Option α) → Option α
  | [] => none
  | some a :: _ => some a
  | none :: rest => firstSome rest

/-- The lists of a list, one after the other. -/
def concatAll {α : Type} : List (List α) → List α
  | [] => []
  | l :: ls => l ++ concatAll ls

/-- The two checks of one set in the order of the specification: reps, then
weight. Each entry is the error of a failed check. -/
def setChecks (st : SetEntry) : List (Option ValidationError) :=
  [if repsInvalid st then some .InvalidReps else none,
   if weightInvalid st then some .InvalidWeight else none]

/-- The checks of one exercise in the order of the specification: its name,
then its sets in list order. -/
def exerciseChecks (ex : Exercise) : List (Option ValidationError) :=
  (if nameMissing ex then some .MissingExerciseName else none) ::
    concatAll (ex.sets.map setChecks)

/-- All checks of a draft in the traversal order of the specification: the
empty-list check, then the exercises in list order. -/
def draftChecks (d : Workout) : List (Option ValidationError) :=
  (if d.exercises.isEmpty then some .NoExercises else none) ::
    concatAll (d.exercises.map exerciseChecks)

/-- The error of the first violation in the traversal order. -/
def firstViolation (d : Workout) : Option ValidationError := firstSome (draftChecks d)

/-- The field of a set that a field name selects. -/
def SetEntry.get (st : SetEntry) : SetField → Str
  | .reps => st.reps
  | .weight => st.weight

/-- The test `record.id === id` on a listed record. -/
def hasId (id : Str) (w : JVal) : Bool :=
  match w.getField idName with
  | some (.str s) => s == id
  | _ => false

/-- The records stored under the `workout:` keys, in store order: the values
that parse. -/
def storedRecords (st : Storage) : List JVal :=
  (st.entries.filter fun e => workoutPrefix.isPrefixOf e.1).filterMap fun e => jsonParse e.2

/-- The store content was written by `saveWorkout`: every pair is the key and
the text that `saveWorkout` writes for some workout. -/
def WrittenBySave (st : Storage) : Prop :=
  ∀ e ∈ st.entries, ∃ w : Workout, e = (workoutKey w.id, stringifyWorkout w)

/-! ## Example data -/

/-- The time stamp used in the examples. -/
def exampleDate : Str := "2024-01-01T00:00:00.000Z".toList

/-- A later time stamp used in the examples. -/
def laterDate : Str := "2024-03-01T00:00:00.000Z".toList

/-- The draft of the scenario: one exercise `Bench Press` with one set of
10 reps at 20. -/
def benchDraft : Workout :=
  { id := "1704067200000".toList, date := exampleDate,
    exercises := [{ id := "1704067200500".toList, name := "Bench Press".toList,
                    sets := [{ reps := "10".toList, weight := "20".toList }] }] }

/-- The draft of the scenario: one exercise `Squat` with one set of 0 reps. -/
def squatDraft : Workout :=
  { id := "1704067200000".toList, date := exampleDate,
    exercises := [{ id := "1704067200500".toList, name := "Squat".toList,
                    sets := [{ reps := "0".toList, weight := [] }] }] }

/-- A draft whose reps text is `1.5`. -/
def fractionalRepsDraft : Workout :=
  { id := "1704067200000".toList, date := exampleDate,
    exercises := [{ id := "1704067200500".toList, name := "Squat".toList,
                    sets := [{ reps := "1.5".toList, weight := [] }] }] }

/-- An empty store whose calls succeed. -/
def emptyStore : Storage :=
  { entries := [], listFails := false, getFails := false, setFails := false,
    deleteFails := false }

/-- An empty store whose writes fail. -/
def failingWriteStore : Storage := { emptyStore with setFails := true }

/-- The state on the new-workout screen with the given draft. -/
def draftingState (st : Storage) (d : Workout) : AppState :=
  { initialState st with currentScreen := .newWorkout, currentWorkout := some d }

/-- A second workout for the examples, later than `benchDraft`: one exercise
`Squat` with one set of 5 reps. -/
def squatWorkout : Workout :=
  { id := "1709251200000".toList, date := laterDate,
    exercises := [{ id := "1709251200500".toList, name := "Squat".toList,
                    sets := [{ reps := "5".toList, weight := [] }] }] }

/-- A store that holds the two example workouts as `saveWorkout` writes them. -/
def twoRecordStore : Storage :=
  { emptyStore with
    entries := [(workoutKey benchDraft.id, stringifyWorkout benchDraft),
                (workoutKey squatWorkout.id, stringifyWorkout squatWorkout)] }

/-- A store that holds one workout and, under a second key, a text that is
not JSON. -/
def corruptStore : Storage :=
  { emptyStore with
    entries := [(workoutKey benchDraft.id, stringifyWorkout benchDraft),
                (workoutKey squatWorkout.id, [cLBrace])] }

/-- A store in which the record of `benchDraft` sits under a key that is not
the key of its id. -/
def misfiledStore : Storage :=
  { emptyStore with
    entries := [(workoutPrefix ++ "copy".toList, stringifyWorkout benchDraft)] }

/-- Whether a value is a number. -/
def JVal.isNumber : JVal → Bool
  | .num _ _ _ => true
  | _ => false

/-- The name of the property `reps`. -/
def repsName : Str := ['r', 'e', 'p', 's']

/-- The name of the property `weight`. -/
def weightName : Str := ['w', 'e', 'i', 'g', 'h', 't']

/-- The name of the property `exercises`. -/
def exercisesName : Str := ['e', 'x', 'e', 'r', 'c', 'i', 's', 'e', 's']

/-- The records among the loaded values of the given entries that are listed
and pass the test `record.id === id`. -/
def recordsWithId (id : Str) (entries : List (Str × Str)) : List JVal :=
  (((entries.filter fun e => workoutPrefix.isPrefixOf e.1).filterMap
    fun e => jsonParse e.2).filter fun w => !w.isNull).filter (hasId id)

/-! ## Validation: which drafts are accepted and which error is reported -/

set_option maxRecDepth 100000

theorem firstSome_append {α : Type} (l₁ l₂ : List (Option α)) :
    firstSome (l₁ ++ l₂) = (firstSome l₁).orElse fun _ => firstSome l₂ := by
  induction l₁ with
  | nil => simp [firstSome]
  | cons a l ih => cases a <;> simp [firstSome, ih]

theorem checkSets_eq_firstSome (sets : List SetEntry) :
    checkSets sets = firstSome (concatAll (sets.map setChecks)) := by
  induction sets with
  | nil => rfl
  | cons st rest ih =>
    simp only [checkSets, List.map_cons, concatAll, setChecks, List.cons_append, List.nil_append]
    by_cases h1 : repsInvalid st = true
    · simp [h1, firstSome]
    · by_cases h2 : weightInvalid st = true
      · simp [h1, h2, firstSome]
      · simp [h1, h2, firstSome, ih]

theorem checkExercises_eq_firstSome (exs : List Exercise) :
    checkExercises exs = firstSome (concatAll (exs.map exerciseChecks)) := by
  induction exs with
  | nil => rfl
  | cons ex rest ih =>
    simp only [checkExercises, List.map_cons, concatAll, exerciseChecks, List.cons_append]
    by_cases h1 : nameMissing ex = true
    · simp [h1, firstSome]
    · simp only [h1, Bool.false_eq_true, if_false, firstSome, firstSome_append,
        ← checkSets_eq_firstSome, ← ih]
      cases checkSets ex.sets <;> simp

theorem validationAlert_eq_firstViolation (d : Workout) :
    validationAlert d = firstViolation d := by
  unfold validationAlert firstViolation draftChecks
  cases h : d.exercises with
  | nil => simp [firstSome]
  | cons ex rest => simp [firstSome, checkExercises_eq_firstSome]

theorem checkSets_eq_none_iff (sets : List SetEntry) :
    checkSets sets = none ↔
      ∀ st ∈ sets, repsInvalid st = false ∧ weightInvalid st = false := by
  induction sets with
  | nil => simp [checkSets]
  | cons st rest ih =>
    simp only [checkSets, List.mem_cons, forall_eq_or_imp]
    by_cases h1 : repsInvalid st = true
    · simp [h1]
    · by_cases h2 : weightInvalid st = true
      · simp [h1, h2]
      · simp [h1, h2, ih]

theorem checkExercises_eq_none_iff (exs : List Exercise) :
    checkExercises exs = none ↔
      ∀ ex ∈ exs, nameMissing ex = false ∧ checkSets ex.sets = none := by
  induction exs with
  | nil => simp [checkExercises]
  | cons ex rest ih =>
    simp only [checkExercises, List.mem_cons, forall_eq_or_imp]
    by_cases h1 : nameMissing ex = true
    · simp [h1]
    · cases h2 : checkSets ex.sets with
      | none => simp [h1, ih]
      | some e => simp [h1]

theorem repsInvalid_eq_false_iff (st : SetEntry)
    (h : st.reps ≠ [] → parseInt st.reps ≠ none) :
    repsInvalid st = false ↔ ∃ n, parseInt st.reps = some n ∧ 0 < n := by
  unfold repsInvalid
  cases hr : st.reps with
  | nil =>
    have : parseInt [] = none := by decide
    simp [this]
  | cons c r =>
    have hne : parseInt (c :: r) ≠ none := by
      rw [← hr]; exact h (by simp [hr])
    cases hp : parseInt (c :: r) with
    | none => exact absurd hp hne
    | some n => simp

theorem weightInvalid_eq_false_iff (st : SetEntry)
    (h : st.weight ≠ [] → parseFloat st.weight ≠ .nan) :
    weightInvalid st = false ↔ st.weight = [] ∨ (parseFloat st.weight).geZero = true := by
  unfold weightInvalid
  cases hw : st.weight with
  | nil => simp
  | cons c r =>
    have hne : parseFloat (c :: r) ≠ .nan := by
      rw [← hw]; exact h (by simp [hw])
    cases hp : parseFloat (c :: r) with
    | nan => exact absurd hp hne
    | inf neg => cases neg <;> simp [JsNum.ltZero, JsNum.geZero]
    | dec neg mant exp =>
      cases neg <;> cases hz : roundsToZero mant exp <;> simp [JsNum.ltZero, JsNum.geZero, hz]

/-- C1 (amended). For every draft in which each non-empty reps text has a
`parseInt` value and each non-empty weight text has a `parseFloat` value
(neither is `NaN`), the checks of `validateAndSaveWorkout` raise no alert and
let the save be reached if and only if: the exercises list is non-empty; every
exercise's name is non-empty after trimming; for every set the integer that
`parseInt` reads at the start of the reps text exists and is greater than 0;
and every weight text is empty or the number `parseFloat` reads at its start
is greater than or equal to 0. -/
theorem validation_accepts_iff (d : Workout)
    (hreps : ∀ ex ∈ d.exercises, ∀ st ∈ ex.sets, st.reps ≠ [] → parseInt st.reps ≠ none)
    (hweight : ∀ ex ∈ d.exercises, ∀ st ∈ ex.sets,
      st.weight ≠ [] → parseFloat st.weight ≠ .nan) :
    validationAlert d = none ↔
      d.exercises ≠ [] ∧
      ∀ ex ∈ d.exercises, trim ex.name ≠ [] ∧
        ∀ st ∈ ex.sets, (∃ n, parseInt st.reps = some n ∧ 0 < n) ∧
          (st.weight = [] ∨ (parseFloat st.weight).geZero = true) := by
  unfold validationAlert
  by_cases he : d.exercises = []
  · simp [he]
  · have hlen : d.exercises.length ≠ 0 := by
      intro h; exact he (List.length_eq_zero.mp h)
    simp only [hlen, if_false, checkExercises_eq_none_iff, checkSets_eq_none_iff, ne_eq, he,
      not_false_eq_true, true_and]
    constructor
    · intro h ex hex
      refine ⟨?_, fun st hst => ?_⟩
      · have := (h ex hex).1
        simpa [nameMissing] using this
      · have := (h ex hex).2 st hst
        exact ⟨(repsInvalid_eq_false_iff st (hreps ex hex st hst)).mp this.1,
          (weightInvalid_eq_false_iff st (hweight ex hex st hst)).mp this.2⟩
    · intro h ex hex
      refine ⟨?_, fun st hst => ?_⟩
      · have := (h ex hex).1
        simpa [nameMissing] using this
      · have := (h ex hex).2 st hst
        exact ⟨(repsInvalid_eq_false_iff st (hreps ex hex st hst)).mpr this.1,
          (weightInvalid_eq_false_iff st (hweight ex hex st hst)).mpr this.2⟩

/-- Witness for C1 (amended): the `Bench Press` draft with reps `10` and
weight `20` meets the hypotheses and is accepted. -/
theorem validation_accepts_iff_witness :
    validationAlert benchDraft = none ↔
      benchDraft.exercises ≠ [] ∧
      ∀ ex ∈ benchDraft.exercises, trim ex.name ≠ [] ∧
        ∀ st ∈ ex.sets, (∃ n, parseInt st.reps = some n ∧ 0 < n) ∧
          (st.weight = [] ∨ (parseFloat st.weight).geZero = true) :=
  validation_accepts_iff benchDraft (by decide) (by decide)

/-- C1 (counterexample). The draft with one exercise `Squat` and one set whose
reps text is `1.5` is accepted: no alert is raised and the record is written
to the store. Yet `1.5` does not denote, as a whole, an integer. -/
theorem fractional_reps_accepted :
    validationAlert fractionalRepsDraft = none ∧
    (validateAndSaveWorkout isoDate (draftingState emptyStore fractionalRepsDraft)).map
        (fun s => (s.alerts, s.storage.entries)) =
      some ([], [(workoutKey fractionalRepsDraft.id, stringifyWorkout fractionalRepsDraft)]) ∧
    ¬ (∀ ex ∈ fractionalRepsDraft.exercises, ∀ st ∈ ex.sets,
        ∃ n, wholeInteger st.reps = some n ∧ 0 < n) := by
  refine ⟨by decide, by decide, ?_⟩
  intro h
  obtain ⟨n, hn, _⟩ := h _ (List.mem_singleton.mpr rfl) _ (List.mem_singleton.mpr rfl)
  have : wholeInteger "1.5".toList = none := by decide
  exact absurd (this.symm.trans hn) (by simp)

/-- C2. For every draft that `validateAndSaveWorkout` rejects, the handler
raises exactly one alert and changes nothing else, and the alert is the error
of the first violation in the traversal order: `NoExercises` for an empty
list, otherwise exercise by exercise the name check, then set by set the reps
check before the weight check. A violation is a check that fails as the
handler tests it (`nameMissing`, `repsInvalid`, `weightInvalid`). -/
theorem rejected_draft_reports_first_violation (D : DateFn) (s : AppState) (d : Workout)
    (hd : s.currentWorkout = some d) (hrej : validationAlert d ≠ none) :
    ∃ e, firstViolation d = some e ∧
      validateAndSaveWorkout D s = some { s with alerts := s.alerts ++ [e.message] } := by
  cases hv : validationAlert d with
  | none => exact absurd hv hrej
  | some e =>
    refine ⟨e, ?_, ?_⟩
    · rw [← validationAlert_eq_firstViolation, hv]
    · simp [validateAndSaveWorkout, hd, validateAndSave, hv]

/-- Witness for C2: the `Squat` draft with reps `0` is rejected with
`InvalidReps`. -/
theorem rejected_draft_reports_first_violation_witness :
    ∃ e, firstViolation squatDraft = some e ∧
      validateAndSaveWorkout isoDate (draftingState emptyStore squatDraft) =
        some { draftingState emptyStore squatDraft with
          alerts := (draftingState emptyStore squatDraft).alerts ++ [e.message] } :=
  rejected_draft_reports_first_violation isoDate (draftingState emptyStore squatDraft) squatDraft
    rfl (by decide)

/-! ## Editing a draft -/

theorem mapIdxFrom_length {α β : Type} (f : α → Nat → β) (i : Nat) (l : List α) :
    (mapIdxFrom f i l).length = l.length := by
  induction l generalizing i with
  | nil => rfl
  | cons a as ih => simp [mapIdxFrom, ih]

theorem mapIdxFrom_getElem? {α β : Type} (f : α → Nat → β) (i k : Nat) (l : List α) :
    (mapIdxFrom f i l)[k]? = (l[k]?).map fun a => f a (i + k) := by
  induction l generalizing i k with
  | nil => simp [mapIdxFrom]
  | cons a as ih =>
    cases k with
    | zero => simp [mapIdxFrom]
    | succ k =>
      simp only [mapIdxFrom, List.getElem?_cons_succ, ih]
      congr 1
      funext a
      congr 1
      omega

theorem mapWithIndex_getElem? {α β : Type} (f : α → Nat → β) (k : Nat) (l : List α) :
    (mapWithIndex f l)[k]? = (l[k]?).map fun a => f a k := by
  simp [mapWithIndex, mapIdxFrom_getElem?]

theorem mapWithIndex_length {α β : Type} (f : α → Nat → β) (l : List α) :
    (mapWithIndex f l).length = l.length := mapIdxFrom_length f 0 l

theorem withField_get (st : SetEntry) (field : SetField) (value : Str) :
    (st.withField field value).get field = value ∧
      ∀ f, f ≠ field → (st.withField field value).get f = st.get f := by
  cases field
  · refine ⟨rfl, fun f hf => ?_⟩
    cases f
    · exact absurd rfl hf
    · rfl
  · refine ⟨rfl, fun f hf => ?_⟩
    cases f
    · rfl
    · exact absurd rfl hf

theorem index_eq_of_id_eq (exs : List Exercise) (hnd : (exs.map Exercise.id).Nodup)
    (i j : Nat) (a b : Exercise) (ha : exs[i]? = some a) (hb : exs[j]? = some b)
    (h : a.id = b.id) : i = j := by
  have hi : i < (exs.map Exercise.id).length := by
    have := List.getElem?_eq_some_iff.mp ha
    simpa using this.1
  have hj : j < (exs.map Exercise.id).length := by
    have := List.getElem?_eq_some_iff.mp hb
    simpa using this.1
  have e1 : (exs.map Exercise.id)[i] = a.id := by
    have : (exs.map Exercise.id)[i]? = some a.id := by simp [ha]
    exact (List.getElem?_eq_some_iff.mp this).2
  have e2 : (exs.map Exercise.id)[j] = b.id := by
    have : (exs.map Exercise.id)[j]? = some b.id := by simp [hb]
    exact (List.getElem?_eq_some_iff.mp this).2
  exact (List.Nodup.getElem_inj_iff hnd).mp (by rw [e1, e2, h])

theorem updateSet_getElem? (exerciseId : Str) (setIndex : Nat) (field : SetField)
    (value : Str) (d : Workout) (j : Nat) :
    (updateSet exerciseId setIndex field value d).exercises[j]? =
      (d.exercises[j]?).map (updatedExercise exerciseId setIndex field value) := by
  simp [updateSet, updatedExercise]

/-- C10. For every draft whose exercise ids are pairwise distinct, every
exercise id present in it (at position `i`), every set index within the bounds
of that exercise, every field and every value: in the draft `updateSet`
returns, the set at that index of that exercise has the given field equal to
the value and its other field unchanged; the draft's id and date, the number
and order of the exercises, every exercise's id and name, the number of sets
of every exercise, and every other set are unchanged. -/
theorem updateSet_frame (d : Workout) (exerciseId : Str) (setIndex : Nat) (field : SetField)
    (value : Str) (hnd : (d.exercises.map Exercise.id).Nodup)
    (i : Nat) (ex : Exercise) (hex : d.exercises[i]? = some ex) (hid : ex.id = exerciseId)
    (st : SetEntry) (hst : ex.sets[setIndex]? = some st) :
    (updateSet exerciseId setIndex field value d).id = d.id ∧
    (updateSet exerciseId setIndex field value d).date = d.date ∧
    (updateSet exerciseId setIndex field value d).exercises.map Exercise.id =
      d.exercises.map Exercise.id ∧
    (updateSet exerciseId setIndex field value d).exercises.map Exercise.name =
      d.exercises.map Exercise.name ∧
    (updateSet exerciseId setIndex field value d).exercises.map (fun e => e.sets.length) =
      d.exercises.map (fun e => e.sets.length) ∧
    (∃ ex1 st1, (updateSet exerciseId setIndex field value d).exercises[i]? = some ex1 ∧
      ex1.sets[setIndex]? = some st1 ∧ st1.get field = value ∧
      ∀ f, f ≠ field → st1.get f = st.get f) ∧
    (∀ j k e s0, d.exercises[j]? = some e → e.sets[k]? = some s0 →
      ¬ (j = i ∧ k = setIndex) →
      ∃ e1, (updateSet exerciseId setIndex field value d).exercises[j]? = some e1 ∧
        e1.sets[k]? = some s0) := by
  refine ⟨rfl, rfl, ?_, ?_, ?_, ?_, ?_⟩
  · simp only [updateSet, List.map_map]
    apply List.map_congr_left
    intro e _
    by_cases h : e.id = exerciseId <;> simp [updatedExercise, h]
  · simp only [updateSet, List.map_map]
    apply List.map_congr_left
    intro e _
    by_cases h : e.id = exerciseId <;> simp [updatedExercise, h]
  · simp only [updateSet, List.map_map]
    apply List.map_congr_left
    intro e _
    by_cases h : e.id = exerciseId <;> simp [updatedExercise, h, mapWithIndex_length]
  · refine ⟨updatedExercise exerciseId setIndex field value ex, st.withField field value,
      ?_, ?_, (withField_get st field value).1, (withField_get st field value).2⟩
    · rw [updateSet_getElem?, hex]; rfl
    · simp [updatedExercise, hid, mapWithIndex_getElem?, hst]
  · intro j k e s0 he hs hne
    refine ⟨updatedExercise exerciseId setIndex field value e, ?_, ?_⟩
    · rw [updateSet_getElem?, he]; rfl
    · by_cases h : e.id = exerciseId
      · have hji : j = i := index_eq_of_id_eq d.exercises hnd j i e ex he hex (h.trans hid.symm)
        have hk : k ≠ setIndex := fun hk => hne ⟨hji, hk⟩
        simp [updatedExercise, h, mapWithIndex_getElem?, hs, hk]
      · simp [updatedExercise, h, hs]

/-- Witness for C10: the weight of the only set of the `Bench Press` draft is
set to `25`. -/
theorem updateSet_frame_witness :
    (updateSet "1704067200500".toList 0 .weight "25".toList benchDraft).id = benchDraft.id ∧
    (updateSet "1704067200500".toList 0 .weight "25".toList benchDraft).date =
      benchDraft.date ∧
    (updateSet "1704067200500".toList 0 .weight "25".toList benchDraft).exercises.map
      Exercise.id = benchDraft.exercises.map Exercise.id ∧
    (updateSet "1704067200500".toList 0 .weight "25".toList benchDraft).exercises.map
      Exercise.name = benchDraft.exercises.map Exercise.name ∧
    (updateSet "1704067200500".toList 0 .weight "25".toList benchDraft).exercises.map
      (fun e => e.sets.length) = benchDraft.exercises.map (fun e => e.sets.length) ∧
    (∃ ex1 st1,
      (updateSet "1704067200500".toList 0 .weight "25".toList benchDraft).exercises[0]? =
        some ex1 ∧
      ex1.sets[0]? = some st1 ∧ st1.get .weight = "25".toList ∧
      ∀ f, f ≠ SetField.weight →
        st1.get f = SetEntry.get { reps := "10".toList, weight := "20".toList } f) ∧
    (∀ j k e s0, benchDraft.exercises[j]? = some e → e.sets[k]? = some s0 →
      ¬ (j = 0 ∧ k = 0) →
      ∃ e1,
        (updateSet "1704067200500".toList 0 .weight "25".toList benchDraft).exercises[j]? =
          some e1 ∧
        e1.sets[k]? = some s0) :=
  updateSet_frame benchDraft "1704067200500".toList 0 .weight "25".toList (by decide) 0
    { id := "1704067200500".toList, name := "Bench Press".toList,
      sets := [{ reps := "10".toList, weight := "20".toList }] }
    (by decide) (by decide) { reps := "10".toList, weight := "20".toList } (by decide)

/-- C9 (failing input). Two `addExercise` calls that read the same
millisecond, which a non-decreasing clock allows, give two exercises with the
same id. -/
theorem addExercise_same_millisecond_repeats_id :
    List.Chain' (fun a b : Nat => a ≤ b)
      (clockReadings [.addExercise 1704067200500, .addExercise 1704067200500]) ∧
    ((runOps [.addExercise 1704067200500, .addExercise 1704067200500]
      (newDraft 1704067200000 exampleDate)).exercises.map Exercise.id) =
      ["1704067200500".toList, "1704067200500".toList] ∧
    ¬ ((runOps [.addExercise 1704067200500, .addExercise 1704067200500]
      (newDraft 1704067200000 exampleDate)).exercises.map Exercise.id).Nodup := by
  refine ⟨by simp [clockReadings], by decide, by decide⟩

/-! ## `JSON.parse` reads back what `JSON.stringify` writes -/

theorem skipWs_cons_of_not_ws (c : Char) (r : Str) (h : isJsonWhiteSpace c = false) :
    skipWs (c :: r) = c :: r := by
  simp [skipWs, List.dropWhile, h]

theorem char_eq_ofNat (c : Char) : c = Char.ofNat c.toNat := by
  simp [Char.ofNat_toNat]

set_option smartUnfolding false in
theorem parseChars_plain (c : Char) (tail : Str) (h34 : c.toNat ≠ 34) (h92 : c.toNat ≠ 92)
    (h32 : ¬ c.toNat < 32) : parseChars (c :: tail) = consChar c (parseChars tail) := by
  show (if c.toNat = 34 then _ else if c.toNat = 92 then _ else if c.toNat < 32 then _ else _)
    = _
  rw [if_neg h34, if_neg h92, if_neg h32]
  rfl

set_option smartUnfolding false in
theorem parseChars_escaped (n : Nat) (hn : n < 32 ∨ n = 34 ∨ n = 92) (tail : Str) :
    parseChars (escapeChar (Char.ofNat n) ++ tail) =
      consChar (Char.ofNat n) (parseChars tail) := by
  have hlow : n < 93 := by omega
  interval_cases n <;> rfl

theorem parseChars_escapeChar (c : Char) (tail : Str) :
    parseChars (escapeChar c ++ tail) = consChar c (parseChars tail) := by
  by_cases hesc : c.toNat < 32 ∨ c.toNat = 34 ∨ c.toNat = 92
  · have hc := char_eq_ofNat c
    rw [hc]
    exact parseChars_escaped c.toNat hesc tail
  · have h34 : c.toNat ≠ 34 := by omega
    have h92 : c.toNat ≠ 92 := by omega
    have h32 : ¬ c.toNat < 32 := by omega
    have he : escapeChar c = [c] := by
      simp only [escapeChar]
      rw [if_neg (by omega), if_neg (by omega), if_neg (by omega), if_neg (by omega),
        if_neg (by omega), if_neg h34, if_neg h92, if_neg h32]
    rw [he]
    exact parseChars_plain c tail h34 h92 h32

set_option smartUnfolding false in
theorem parseChars_quote (tail : Str) : parseChars (cQuote :: tail) = some ([], tail) := rfl

theorem parseChars_escapeChars (s tail : Str) :
    parseChars (escapeChars s ++ cQuote :: tail) = some (s, tail) := by
  induction s with
  | nil => exact parseChars_quote tail
  | cons c r ih =>
    simp only [escapeChars, List.append_assoc]
    rw [parseChars_escapeChar, ih]
    rfl


theorem quoteJSON_append (s tail : Str) :
    quoteJSON s ++ tail = cQuote :: (escapeChars s ++ cQuote :: tail) := by
  simp [quoteJSON]


theorem skipWs_quote (r : Str) : skipWs (cQuote :: r) = cQuote :: r :=
  skipWs_cons_of_not_ws _ _ (by decide)

theorem skipWs_lbrace (r : Str) : skipWs (cLBrace :: r) = cLBrace :: r :=
  skipWs_cons_of_not_ws _ _ (by decide)

theorem skipWs_rbrace (r : Str) : skipWs (cRBrace :: r) = cRBrace :: r :=
  skipWs_cons_of_not_ws _ _ (by decide)

theorem skipWs_lbracket (r : Str) : skipWs ('[' :: r) = '[' :: r :=
  skipWs_cons_of_not_ws _ _ (by decide)

theorem skipWs_rbracket (r : Str) : skipWs (']' :: r) = ']' :: r :=
  skipWs_cons_of_not_ws _ _ (by decide)

theorem skipWs_comma (r : Str) : skipWs (',' :: r) = ',' :: r :=
  skipWs_cons_of_not_ws _ _ (by decide)

theorem skipWs_colon (r : Str) : skipWs (':' :: r) = ':' :: r :=
  skipWs_cons_of_not_ws _ _ (by decide)

theorem toNat_quote : cQuote.toNat = 34 := rfl

theorem toNat_lbrace : cLBrace.toNat = 123 := rfl

theorem toNat_rbrace : cRBrace.toNat = 125 := rfl

theorem toNat_lbracket : ('[' : Char).toNat = 91 := rfl

theorem toNat_rbracket : (']' : Char).toNat = 93 := rfl

theorem toNat_comma : (',' : Char).toNat = 44 := rfl

theorem toNat_colon : (':' : Char).toNat = 58 := rfl

theorem parseValue_string (fuel : Nat) (s tail : Str) :
    parseValue (fuel + 1) (quoteJSON s ++ tail) = some (.str s, tail) := by
  rw [quoteJSON_append, parseValue]
  simp [skipWs_quote, toNat_quote, parseChars_escapeChars]

theorem parseValue_object (fuel : Nat) (body : Str) (members : List (Str × JVal)) (rest : Str)
    (h : parseMembers fuel (cQuote :: body) = some (members, rest)) :
    parseValue (fuel + 1) (cLBrace :: cQuote :: body) = some (.obj members, rest) := by
  rw [parseValue]
  simp [skipWs_quote, skipWs_lbrace, toNat_quote, toNat_lbrace, h]

theorem parseValue_emptyArray (fuel : Nat) (rest : Str) :
    parseValue (fuel + 1) ('[' :: ']' :: rest) = some (.arr [], rest) := by
  rw [parseValue]
  simp [skipWs_lbracket, skipWs_rbracket, toNat_lbracket, toNat_rbracket]

theorem parseValue_array (fuel : Nat) (body : Str) (items : List JVal) (rest : Str)
    (h : parseElements fuel (cLBrace :: body) = some (items, rest)) :
    parseValue (fuel + 1) ('[' :: cLBrace :: body) = some (.arr items, rest) := by
  rw [parseValue]
  simp [skipWs_lbracket, skipWs_lbrace, toNat_lbracket, toNat_lbrace, h]

theorem parseElements_last (fuel : Nat) (text : Str) (v : JVal) (rest : Str)
    (h : parseValue fuel (text ++ ']' :: rest) = some (v, ']' :: rest)) :
    parseElements (fuel + 1) (text ++ ']' :: rest) = some ([v], rest) := by
  rw [parseElements, h]
  simp [skipWs_rbracket, toNat_rbracket]

theorem parseElements_more (fuel : Nat) (text more : Str) (v : JVal) (items : List JVal)
    (rest : Str)
    (h : parseValue fuel (text ++ ',' :: more) = some (v, ',' :: more))
    (hm : parseElements fuel more = some (items, rest)) :
    parseElements (fuel + 1) (text ++ ',' :: more) = some (v :: items, rest) := by
  rw [parseElements, h]
  simp [skipWs_comma, toNat_comma, hm]

theorem parseMembers_last (fuel : Nat) (k text : Str) (v : JVal) (rest : Str)
    (h : parseValue fuel (text ++ cRBrace :: rest) = some (v, cRBrace :: rest)) :
    parseMembers (fuel + 1) (quoteJSON k ++ ':' :: (text ++ cRBrace :: rest)) =
      some ([(k, v)], rest) := by
  rw [quoteJSON_append, parseMembers]
  simp [skipWs_quote, skipWs_colon, skipWs_rbrace, toNat_quote, toNat_colon, toNat_rbrace,
    parseChars_escapeChars, h]

theorem parseMembers_more (fuel : Nat) (k text more : Str) (v : JVal)
    (members : List (Str × JVal)) (rest : Str)
    (h : parseValue fuel (text ++ ',' :: more) = some (v, ',' :: more))
    (hm : parseMembers fuel more = some (members, rest)) :
    parseMembers (fuel + 1) (quoteJSON k ++ ':' :: (text ++ ',' :: more)) =
      some ((k, v) :: members, rest) := by
  rw [quoteJSON_append, parseMembers]
  simp [skipWs_quote, skipWs_colon, skipWs_comma, toNat_quote, toNat_colon, toNat_comma,
    parseChars_escapeChars, h, hm]
theorem parseValue_object_of_members (fuel : Nat) (k body : Str)
    (members : List (Str × JVal)) (rest : Str)
    (h : parseMembers fuel (quoteJSON k ++ body) = some (members, rest)) :
    parseValue (fuel + 1) (cLBrace :: (quoteJSON k ++ body)) = some (.obj members, rest) := by
  rw [quoteJSON_append] at h ⊢
  exact parseValue_object fuel _ members rest h

theorem parseValue_array_of_elements (fuel : Nat) (text body : Str) (items : List JVal)
    (rest : Str) (htext : text = cLBrace :: body)
    (h : parseElements fuel text = some (items, rest)) :
    parseValue (fuel + 1) ('[' :: text) = some (.arr items, rest) := by
  subst htext
  exact parseValue_array fuel body items rest h

theorem stringifySet_append (st : SetEntry) (tail : Str) :
    stringifySet st ++ tail =
      cLBrace :: (quoteJSON ['r', 'e', 'p', 's'] ++ ':' :: (quoteJSON st.reps ++ ',' ::
        (quoteJSON ['w', 'e', 'i', 'g', 'h', 't'] ++ ':' ::
          (quoteJSON st.weight ++ cRBrace :: tail)))) := by
  simp [stringifySet]

theorem parseValue_set (fuel : Nat) (st : SetEntry) (tail : Str) :
    parseValue (fuel + 4) (stringifySet st ++ tail) = some (st.toJVal, tail) := by
  rw [stringifySet_append]
  exact parseValue_object_of_members (fuel + 3) _ _ _ _
    (parseMembers_more (fuel + 2) _ _ _ _ _ _ (parseValue_string (fuel + 1) _ _)
      (parseMembers_last (fuel + 1) _ _ _ _ (parseValue_string fuel _ _)))

theorem stringifySet_length (st : SetEntry) : 23 ≤ (stringifySet st).length := by
  have h1 : (escapeChars ['r', 'e', 'p', 's']).length = 4 := by decide
  have h2 : (escapeChars ['w', 'e', 'i', 'g', 'h', 't']).length = 6 := by decide
  simp [stringifySet, quoteJSON]
  omega

theorem joinComma_cons_cons (x y : Str) (r : List Str) (tail : Str) :
    joinComma (x :: y :: r) ++ tail = x ++ ',' :: (joinComma (y :: r) ++ tail) := by
  simp [joinComma]

theorem joinComma_length_cons_cons (x y : Str) (r : List Str) :
    (joinComma (x :: y :: r)).length = x.length + 1 + (joinComma (y :: r)).length := by
  simp [joinComma]
  omega

theorem parseElements_sets (sets : List SetEntry) (hne : sets ≠ []) (fuel : Nat) (tail : Str)
    (hfuel : (joinComma (sets.map stringifySet)).length ≤ fuel) :
    parseElements fuel (joinComma (sets.map stringifySet) ++ ']' :: tail) =
      some (sets.map SetEntry.toJVal, tail) := by
  induction sets generalizing fuel with
  | nil => exact absurd rfl hne
  | cons x rest ih =>
    cases rest with
    | nil =>
      simp only [List.map_cons, List.map_nil, joinComma] at hfuel ⊢
      have hx := stringifySet_length x
      obtain ⟨f, rfl⟩ : ∃ f, fuel = (f + 4) + 1 := ⟨fuel - 5, by omega⟩
      exact parseElements_last (f + 4) _ _ _ (parseValue_set f x _)
    | cons y r =>
      simp only [List.map_cons] at hfuel ⊢
      rw [joinComma_length_cons_cons] at hfuel
      rw [joinComma_cons_cons]
      have hx := stringifySet_length x
      obtain ⟨f, rfl⟩ : ∃ f, fuel = (f + 4) + 1 := ⟨fuel - 5, by omega⟩
      refine parseElements_more (f + 4) _ _ _ _ _ (parseValue_set f x _) ?_
      have := ih (by simp) (f + 4) (by simp only [List.map_cons]; omega)
      simpa using this

theorem joinComma_starts_with_brace (f : α → Str) (xs : List α) (hne : xs ≠ [])
    (hf : ∀ x, ∃ body, f x = cLBrace :: body) (tail : Str) :
    ∃ body, joinComma (xs.map f) ++ tail = cLBrace :: body := by
  cases xs with
  | nil => exact absurd rfl hne
  | cons x rest =>
    obtain ⟨b, hb⟩ := hf x
    cases rest with
    | nil => exact ⟨b ++ tail, by simp [joinComma, hb]⟩
    | cons y r => exact ⟨b ++ ',' :: (joinComma ((y :: r).map f) ++ tail), by
        simp [joinComma, hb]⟩

theorem parseValue_sets (sets : List SetEntry) (fuel : Nat) (tail : Str)
    (hfuel : (joinComma (sets.map stringifySet)).length + 2 ≤ fuel) :
    parseValue fuel ('[' :: (joinComma (sets.map stringifySet) ++ ']' :: tail)) =
      some (.arr (sets.map SetEntry.toJVal), tail) := by
  obtain ⟨f, rfl⟩ : ∃ f, fuel = f + 1 := ⟨fuel - 1, by omega⟩
  by_cases hne : sets = []
  · subst hne
    exact parseValue_emptyArray f tail
  · obtain ⟨body, hbody⟩ := joinComma_starts_with_brace stringifySet sets hne
      (fun x => ⟨_, rfl⟩) (']' :: tail)
    exact parseValue_array_of_elements f _ body _ _ hbody
      (parseElements_sets sets hne f tail (by omega))

theorem stringifyExercise_append (ex : Exercise) (tail : Str) :
    stringifyExercise ex ++ tail =
      cLBrace :: (quoteJSON ['i', 'd'] ++ ':' :: (quoteJSON ex.id ++ ',' ::
        (quoteJSON ['n', 'a', 'm', 'e'] ++ ':' :: (quoteJSON ex.name ++ ',' ::
          (quoteJSON ['s', 'e', 't', 's'] ++ ':' ::
            (('[' :: (joinComma (ex.sets.map stringifySet) ++ ']' :: [])) ++
              cRBrace :: tail)))))) := by
  simp [stringifyExercise]

theorem stringifyExercise_length (ex : Exercise) :
    (joinComma (ex.sets.map stringifySet)).length + 29 ≤ (stringifyExercise ex).length := by
  have h1 : (escapeChars ['i', 'd']).length = 2 := by decide
  have h2 : (escapeChars ['n', 'a', 'm', 'e']).length = 4 := by decide
  have h3 : (escapeChars ['s', 'e', 't', 's']).length = 4 := by decide
  simp [stringifyExercise, quoteJSON]
  omega

theorem parseValue_exercise (ex : Exercise) (fuel : Nat) (tail : Str)
    (hfuel : (stringifyExercise ex).length ≤ fuel + 1) :
    parseValue fuel (stringifyExercise ex ++ tail) = some (ex.toJVal, tail) := by
  rw [stringifyExercise_append]
  have hl := stringifyExercise_length ex
  obtain ⟨f, rfl⟩ : ∃ f, fuel = f + 4 := ⟨fuel - 4, by omega⟩
  refine parseValue_object_of_members (f + 3) _ _ _ _
    (parseMembers_more (f + 2) _ _ _ _ _ _ (parseValue_string (f + 1) _ _)
      (parseMembers_more (f + 1) _ _ _ _ _ _ (parseValue_string f _ _)
        (parseMembers_last f _ _ _ _ ?_)))
  have := parseValue_sets ex.sets f (cRBrace :: tail) (by omega)
  simpa using this

theorem parseElements_exercises (exs : List Exercise) (hne : exs ≠ []) (fuel : Nat)
    (tail : Str) (hfuel : (joinComma (exs.map stringifyExercise)).length ≤ fuel) :
    parseElements fuel (joinComma (exs.map stringifyExercise) ++ ']' :: tail) =
      some (exs.map Exercise.toJVal, tail) := by
  induction exs generalizing fuel with
  | nil => exact absurd rfl hne
  | cons x rest ih =>
    have hx := stringifyExercise_length x
    cases rest with
    | nil =>
      simp only [List.map_cons, List.map_nil, joinComma] at hfuel ⊢
      obtain ⟨f, rfl⟩ : ∃ f, fuel = f + 1 := ⟨fuel - 1, by omega⟩
      exact parseElements_last f _ _ _ (parseValue_exercise x f _ (by omega))
    | cons y r =>
      simp only [List.map_cons] at hfuel ⊢
      rw [joinComma_length_cons_cons] at hfuel
      rw [joinComma_cons_cons]
      obtain ⟨f, rfl⟩ : ∃ f, fuel = f + 1 := ⟨fuel - 1, by omega⟩
      refine parseElements_more f _ _ _ _ _ (parseValue_exercise x f _ (by omega)) ?_
      have := ih (by simp) f (by simp only [List.map_cons]; omega)
      simpa using this

theorem parseValue_exercises (exs : List Exercise) (fuel : Nat) (tail : Str)
    (hfuel : (joinComma (exs.map stringifyExercise)).length + 2 ≤ fuel) :
    parseValue fuel ('[' :: (joinComma (exs.map stringifyExercise) ++ ']' :: tail)) =
      some (.arr (exs.map Exercise.toJVal), tail) := by
  obtain ⟨f, rfl⟩ : ∃ f, fuel = f + 1 := ⟨fuel - 1, by omega⟩
  by_cases hne : exs = []
  · subst hne
    exact parseValue_emptyArray f tail
  · obtain ⟨body, hbody⟩ := joinComma_starts_with_brace stringifyExercise exs hne
      (fun x => ⟨_, rfl⟩) (']' :: tail)
    exact parseValue_array_of_elements f _ body _ _ hbody
      (parseElements_exercises exs hne f tail (by omega))

theorem stringifyWorkout_append (w : Workout) (tail : Str) :
    stringifyWorkout w ++ tail =
      cLBrace :: (quoteJSON ['i', 'd'] ++ ':' :: (quoteJSON w.id ++ ',' ::
        (quoteJSON ['d', 'a', 't', 'e'] ++ ':' :: (quoteJSON w.date ++ ',' ::
          (quoteJSON ['e', 'x', 'e', 'r', 'c', 'i', 's', 'e', 's'] ++ ':' ::
            (('[' :: (joinComma (w.exercises.map stringifyExercise) ++ ']' :: [])) ++
              cRBrace :: tail)))))) := by
  simp [stringifyWorkout]

theorem stringifyWorkout_length (w : Workout) :
    (joinComma (w.exercises.map stringifyExercise)).length + 30 ≤
      (stringifyWorkout w).length := by
  have h1 : (escapeChars ['i', 'd']).length = 2 := by decide
  have h2 : (escapeChars ['d', 'a', 't', 'e']).length = 4 := by decide
  have h3 : (escapeChars ['e', 'x', 'e', 'r', 'c', 'i', 's', 'e', 's']).length = 9 := by decide
  simp [stringifyWorkout, quoteJSON]
  omega

theorem parseValue_workout (w : Workout) (fuel : Nat) (tail : Str)
    (hfuel : (stringifyWorkout w).length ≤ fuel + 1) :
    parseValue fuel (stringifyWorkout w ++ tail) = some (w.toJVal, tail) := by
  rw [stringifyWorkout_append]
  have hl := stringifyWorkout_length w
  obtain ⟨f, rfl⟩ : ∃ f, fuel = f + 4 := ⟨fuel - 4, by omega⟩
  refine parseValue_object_of_members (f + 3) _ _ _ _
    (parseMembers_more (f + 2) _ _ _ _ _ _ (parseValue_string (f + 1) _ _)
      (parseMembers_more (f + 1) _ _ _ _ _ _ (parseValue_string f _ _)
        (parseMembers_last f _ _ _ _ ?_)))
  have := parseValue_exercises w.exercises f (cRBrace :: tail) (by omega)
  simpa using this

/-- `JSON.parse(JSON.stringify(w))` gives back the workout, with the same id,
date, exercises, names, sets and texts. -/
theorem jsonParse_stringifyWorkout (w : Workout) :
    jsonParse (stringifyWorkout w) = some w.toJVal := by
  have h := parseValue_workout w ((stringifyWorkout w).length + 1) [] (by omega)
  rw [List.append_nil] at h
  simp [jsonParse, h, skipWs]

/-! ## The store and the listing -/

theorem find?_of_nodup_keys (l : List (Str × Str)) (hnd : (l.map Prod.fst).Nodup)
    (e : Str × Str) (he : e ∈ l) : l.find? (fun x => x.1 == e.1) = some e := by
  induction l with
  | nil => simp at he
  | cons a rest ih =>
    simp only [List.map_cons, List.nodup_cons] at hnd
    rcases List.mem_cons.mp he with h | h
    · subst h
      simp [List.find?]
    · have hne : a.1 ≠ e.1 := by
        intro heq
        exact hnd.1 (heq ▸ List.mem_map_of_mem Prod.fst h)
      have hb : (a.1 == e.1) = false := by simpa using hne
      simp only [List.find?, hb, ih hnd.2 h]

theorem get_of_mem (st : Storage) (hget : st.getFails = false) (hmap : st.isMap)
    (e : Str × Str) (he : e ∈ st.entries) : st.get e.1 = some (some e.2) := by
  simp [Storage.get, hget, find?_of_nodup_keys st.entries hmap e he]

theorem fetchAll_entries (st : Storage) (hget : st.getFails = false) (hmap : st.isMap)
    (l : List (Str × Str)) (hl : ∀ e ∈ l, e ∈ st.entries)
    (hp : ∀ e ∈ l, ∃ j, jsonParse e.2 = some j) :
    fetchAll st (l.map Prod.fst) = some (l.filterMap fun e => jsonParse e.2) := by
  induction l with
  | nil => rfl
  | cons a rest ih =>
    obtain ⟨j, hj⟩ := hp a (List.mem_cons_self _ _)
    have iht := ih (fun e he => hl e (List.mem_cons_of_mem _ he))
      (fun e he => hp e (List.mem_cons_of_mem _ he))
    simp only [List.map_cons, fetchAll, fetchWorkout,
      get_of_mem st hget hmap a (hl a (List.mem_cons_self _ _)), hj, iht,
      List.filterMap_cons]

theorem fetchAll_eq_none (st : Storage) (keys : List Str) (k : Str) (hk : k ∈ keys)
    (hf : fetchWorkout st k = none) : fetchAll st keys = none := by
  induction keys with
  | nil => simp at hk
  | cons a rest ih =>
    rcases List.mem_cons.mp hk with h | h
    · subst h
      simp [fetchAll, hf]
    · simp only [fetchAll]
      cases fetchWorkout st a with
      | none => rfl
      | some w => simp [ih h]

theorem list_eq (st : Storage) (hlist : st.listFails = false) :
    st.list workoutPrefix =
      some ((st.entries.filter fun e => workoutPrefix.isPrefixOf e.1).map Prod.fst) := by
  simp only [Storage.list, hlist, Bool.false_eq_true, if_false, List.filter_map]
  rfl

/-- On a store that is a map, whose calls succeed and whose values under the
`workout:` keys all parse, `loadWorkouts` computes the stored records that
are not `null`, sorted. -/
theorem loadedListing_eq (D : DateFn) (st : Storage) (hrel : st.reliable) (hmap : st.isMap)
    (hp : ∀ e ∈ st.entries, workoutPrefix.isPrefixOf e.1 = true → ∃ j, jsonParse e.2 = some j) :
    loadedListing D st =
      some (sortByDateDesc D ((storedRecords st).filter fun w => !w.isNull)) := by
  have hfetch := fetchAll_entries st hrel.2.1 hmap
    (st.entries.filter fun e => workoutPrefix.isPrefixOf e.1)
    (fun e he => (List.mem_filter.mp he).1)
    (fun e he => hp e (List.mem_filter.mp he).1 (List.mem_filter.mp he).2)
  simp only [loadedListing, list_eq st hrel.1, hfetch, storedRecords]

theorem orderedInsert_pairwise {α : Type} (r : α → α → Prop) [DecidableRel r] (a : α)
    (l : List α) (hl : l.Pairwise r) (htot : ∀ b ∈ l, r a b ∨ r b a)
    (htrans : ∀ x y, x ∈ l → y ∈ l → r a x → r x y → r a y) :
    (l.orderedInsert r a).Pairwise r := by
  induction l with
  | nil => simp
  | cons b rest ih =>
    rw [List.pairwise_cons] at hl
    by_cases hab : r a b
    · rw [List.orderedInsert, if_pos hab]
      refine List.pairwise_cons.mpr ⟨?_, List.pairwise_cons.mpr hl⟩
      intro x hx
      rcases List.mem_cons.mp hx with h | h
      · exact h ▸ hab
      · exact htrans b x (List.mem_cons_self _ _) (List.mem_cons_of_mem _ h) hab (hl.1 x h)
    · rw [List.orderedInsert, if_neg hab]
      have hba : r b a := (htot b (List.mem_cons_self _ _)).resolve_left hab
      refine List.pairwise_cons.mpr ⟨?_, ?_⟩
      · intro x hx
        rcases (List.mem_orderedInsert r).mp hx with h | h
        · exact h ▸ hba
        · exact hl.1 x h
      · exact ih hl.2 (fun x hx => htot x (List.mem_cons_of_mem _ hx))
          (fun x y hx hy => htrans x y (List.mem_cons_of_mem _ hx) (List.mem_cons_of_mem _ hy))

theorem insertionSort_pairwise {α : Type} (r : α → α → Prop) [DecidableRel r] (l : List α)
    (htot : ∀ a ∈ l, ∀ b ∈ l, r a b ∨ r b a)
    (htrans : ∀ a ∈ l, ∀ b ∈ l, ∀ c ∈ l, r a b → r b c → r a c) :
    (l.insertionSort r).Pairwise r := by
  induction l with
  | nil => simp
  | cons a rest ih =>
    rw [List.insertionSort]
    have hmem : ∀ x, x ∈ rest.insertionSort r → x ∈ rest := fun x hx =>
      (List.mem_insertionSort r).mp hx
    refine orderedInsert_pairwise r a _ ?_ ?_ ?_
    · exact ih (fun x hx y hy => htot x (List.mem_cons_of_mem _ hx) y (List.mem_cons_of_mem _ hy))
        (fun x hx y hy z hz => htrans x (List.mem_cons_of_mem _ hx) y
          (List.mem_cons_of_mem _ hy) z (List.mem_cons_of_mem _ hz))
    · intro b hb
      exact htot a (List.mem_cons_self _ _) b (List.mem_cons_of_mem _ (hmem b hb))
    · intro x y hx hy
      exact htrans a (List.mem_cons_self _ _) x (List.mem_cons_of_mem _ (hmem x hx)) y
        (List.mem_cons_of_mem _ (hmem y hy))

theorem sortByDateDesc_perm (D : DateFn) (l : List JVal) : (sortByDateDesc D l).Perm l :=
  List.perm_insertionSort _ l

theorem mem_sortByDateDesc (D : DateFn) (l : List JVal) (x : JVal) :
    x ∈ sortByDateDesc D l ↔ x ∈ l :=
  (sortByDateDesc_perm D l).mem_iff

theorem sortByDateDesc_pairwise (D : DateFn) (l : List JVal)
    (hvalid : ∀ w ∈ l, dateValue D w ≠ none) :
    (sortByDateDesc D l).Pairwise fun a b =>
      ∃ ta tb, dateValue D a = some ta ∧ dateValue D b = some tb ∧ tb ≤ ta := by
  have key : ∀ a ∈ l, ∀ b ∈ l, (mayPrecede D a b = true ↔
      ∃ ta tb, dateValue D a = some ta ∧ dateValue D b = some tb ∧ tb ≤ ta) := by
    intro a ha b hb
    obtain ⟨ta, hta⟩ := Option.ne_none_iff_exists'.mp (hvalid a ha)
    obtain ⟨tb, htb⟩ := Option.ne_none_iff_exists'.mp (hvalid b hb)
    simp [mayPrecede, hta, htb]
  have hp : (sortByDateDesc D l).Pairwise fun a b => mayPrecede D a b = true := by
    refine insertionSort_pairwise _ l ?_ ?_
    · intro a ha b hb
      obtain ⟨ta, hta⟩ := Option.ne_none_iff_exists'.mp (hvalid a ha)
      obtain ⟨tb, htb⟩ := Option.ne_none_iff_exists'.mp (hvalid b hb)
      simp only [mayPrecede, hta, htb, decide_eq_true_eq]
      omega
    · intro a ha b hb c hc
      obtain ⟨ta, hta⟩ := Option.ne_none_iff_exists'.mp (hvalid a ha)
      obtain ⟨tb, htb⟩ := Option.ne_none_iff_exists'.mp (hvalid b hb)
      obtain ⟨tc, htc⟩ := Option.ne_none_iff_exists'.mp (hvalid c hc)
      simp only [mayPrecede, hta, htb, htc, decide_eq_true_eq]
      omega
  refine hp.imp_of_mem ?_
  intro a b ha hb hab
  exact (key a ((mem_sortByDateDesc D l a).mp ha) b ((mem_sortByDateDesc D l b).mp hb)).mp hab

/-! ## Saving, loading and deleting -/

theorem workoutKey_hasPrefix (id : Str) : workoutPrefix.isPrefixOf (workoutKey id) = true := by
  rw [List.isPrefixOf_iff_prefix]
  exact List.prefix_append _ _

theorem workoutKey_injective (a b : Str) (h : workoutKey a = workoutKey b) : a = b :=
  List.append_cancel_left h

theorem toJVal_not_null (w : Workout) : w.toJVal.isNull = false := rfl

theorem hasId_toJVal (id : Str) (w : Workout) : hasId id w.toJVal = (w.id == id) := by
  simp [hasId, JVal.getField, Workout.toJVal, idName, List.find?]

theorem mem_setEntry_self (key value : Str) (l : List (Str × Str)) :
    (key, value) ∈ setEntry key value l := by
  induction l with
  | nil => simp [setEntry]
  | cons e rest ih =>
    by_cases h : e.1 = key
    · simp [setEntry, h]
    · simp [setEntry, h, ih]

theorem keys_setEntry (key value : Str) (l : List (Str × Str)) :
    (setEntry key value l).map Prod.fst =
      if key ∈ l.map Prod.fst then l.map Prod.fst else l.map Prod.fst ++ [key] := by
  induction l with
  | nil => simp [setEntry]
  | cons e rest ih =>
    by_cases h : e.1 = key
    · simp [setEntry, h]
    · have h2 : ¬ key = e.1 := fun h3 => h h3.symm
      by_cases hk : key ∈ rest.map Prod.fst
      · rw [if_pos hk] at ih
        have hk2 : ∃ b, (key, b) ∈ rest := by simpa using hk
        simp [setEntry, h, h2, ih, hk2]
      · rw [if_neg hk] at ih
        have hk2 : ¬ ∃ b, (key, b) ∈ rest := by simpa using hk
        simp [setEntry, h, h2, ih, hk2]

theorem nodup_keys_setEntry (key value : Str) (l : List (Str × Str))
    (h : (l.map Prod.fst).Nodup) : ((setEntry key value l).map Prod.fst).Nodup := by
  rw [keys_setEntry]
  by_cases hk : key ∈ l.map Prod.fst
  · rw [if_pos hk]; exact h
  · rw [if_neg hk]
    exact List.Nodup.append h (List.nodup_singleton _) (by simpa using hk)

theorem of_mem_setEntry (key value : Str) (l : List (Str × Str))
    (hnd : (l.map Prod.fst).Nodup) (e : Str × Str)
    (he : e ∈ setEntry key value l) : e = (key, value) ∨ (e ∈ l ∧ e.1 ≠ key) := by
  induction l with
  | nil => left; simpa [setEntry] using he
  | cons a rest ih =>
    simp only [List.map_cons, List.nodup_cons] at hnd
    by_cases h : a.1 = key
    · simp only [setEntry, h, if_true, List.mem_cons] at he
      rcases he with he | he
      · exact Or.inl he
      · refine Or.inr ⟨List.mem_cons_of_mem _ he, ?_⟩
        intro hk
        exact hnd.1 (h ▸ hk ▸ List.mem_map_of_mem Prod.fst he)
    · simp only [setEntry, h, if_false, List.mem_cons] at he
      rcases he with he | he
      · exact Or.inr ⟨by simp [he], he ▸ h⟩
      · rcases ih hnd.2 he with h1 | h1
        · exact Or.inl h1
        · exact Or.inr ⟨List.mem_cons_of_mem _ h1.1, h1.2⟩

theorem recordsWithId_cons_skip (id : Str) (e : Str × Str) (l : List (Str × Str))
    (h : workoutPrefix.isPrefixOf e.1 = true → ∃ j, jsonParse e.2 = some j ∧ hasId id j = false) :
    recordsWithId id (e :: l) = recordsWithId id l := by
  unfold recordsWithId
  by_cases hp : workoutPrefix.isPrefixOf e.1 = true
  · obtain ⟨j, hj, hid⟩ := h hp
    cases hn : j.isNull <;> simp [List.filter_cons, hp, hj, hid, hn]
  · simp [List.filter_cons, hp]

theorem recordsWithId_cons_hit (id : Str) (e : Str × Str) (l : List (Str × Str)) (j : JVal)
    (hp : workoutPrefix.isPrefixOf e.1 = true) (hj : jsonParse e.2 = some j)
    (hn : j.isNull = false) (hid : hasId id j = true) :
    recordsWithId id (e :: l) = j :: recordsWithId id l := by
  unfold recordsWithId
  simp [List.filter_cons, hp, hj, hid, hn]

theorem recordsWithId_eq_nil (id : Str) (l : List (Str × Str))
    (h : ∀ e ∈ l, workoutPrefix.isPrefixOf e.1 = true →
      ∃ j, jsonParse e.2 = some j ∧ hasId id j = false) :
    recordsWithId id l = [] := by
  induction l with
  | nil => rfl
  | cons e rest ih =>
    rw [recordsWithId_cons_skip id e rest (h e (List.mem_cons_self _ _))]
    exact ih fun x hx => h x (List.mem_cons_of_mem _ hx)

theorem recordsWithId_setEntry (id key value : Str) (j0 : JVal) (l : List (Str × Str))
    (hnd : (l.map Prod.fst).Nodup)
    (hother : ∀ e ∈ l, workoutPrefix.isPrefixOf e.1 = true → e.1 ≠ key →
      ∃ j, jsonParse e.2 = some j ∧ hasId id j = false)
    (hp : workoutPrefix.isPrefixOf key = true) (hj : jsonParse value = some j0)
    (hn : j0.isNull = false) (hid : hasId id j0 = true) :
    recordsWithId id (setEntry key value l) = [j0] := by
  induction l with
  | nil =>
    rw [setEntry, recordsWithId_cons_hit id _ _ j0 hp hj hn hid]
    rfl
  | cons a rest ih =>
    simp only [List.map_cons, List.nodup_cons] at hnd
    by_cases h : a.1 = key
    · rw [setEntry, if_pos h, recordsWithId_cons_hit id _ _ j0 hp hj hn hid]
      rw [recordsWithId_eq_nil id rest]
      intro e he hpe
      refine hother e (List.mem_cons_of_mem _ he) hpe ?_
      intro hk
      exact hnd.1 (h ▸ hk ▸ List.mem_map_of_mem Prod.fst he)
    · rw [setEntry, if_neg h, recordsWithId_cons_skip id a _
        (fun hpa => hother a (List.mem_cons_self _ _) hpa h)]
      exact ih hnd.2 fun e he => hother e (List.mem_cons_of_mem _ he)

theorem loadWorkouts_storage (D : DateFn) (s : AppState) :
    (loadWorkouts D s).storage = s.storage := by
  unfold loadWorkouts
  cases loadedListing D s.storage <;> rfl

theorem loadWorkouts_of_listing (D : DateFn) (s : AppState) (listing : List JVal)
    (h : loadedListing D s.storage = some listing) :
    loadWorkouts D s = { s with workouts := listing } := by
  simp [loadWorkouts, h]
theorem set_of_reliable (st : Storage) (h : st.setFails = false) (key value : Str) :
    st.set key value = some { st with entries := setEntry key value st.entries } := by
  simp [Storage.set, h]

theorem getField_reps (st : SetEntry) : st.toJVal.getField repsName = some (.str st.reps) := by
  simp [JVal.getField, SetEntry.toJVal, repsName, List.find?]

theorem getField_weight (st : SetEntry) :
    st.toJVal.getField weightName = some (.str st.weight) := by
  simp [JVal.getField, SetEntry.toJVal, weightName, List.find?]

theorem getField_id (w : Workout) : w.toJVal.getField idName = some (.str w.id) := by
  simp [JVal.getField, Workout.toJVal, idName, List.find?]

theorem getField_date (w : Workout) : w.toJVal.getField dateName = some (.str w.date) := by
  simp [JVal.getField, Workout.toJVal, dateName, List.find?]

theorem getField_exercises (w : Workout) :
    w.toJVal.getField exercisesName = some (.arr (w.exercises.map Exercise.toJVal)) := by
  simp [JVal.getField, Workout.toJVal, exercisesName, List.find?]

/-- C3 (amended). For every draft that passes validation, with a store whose
write succeeds, the workout `validateAndSaveWorkout` hands to `saveWorkout` is
the draft itself, unchanged: the text written under `workout:<id>` is
`JSON.stringify` of the draft, it parses back to the draft, and in it each
set's `reps` and `weight` are the draft's texts as strings. -/
theorem saved_workout_is_draft (D : DateFn) (s : AppState) (d : Workout)
    (hd : s.currentWorkout = some d) (hv : validationAlert d = none)
    (hset : s.storage.setFails = false) :
    ∃ s1, validateAndSaveWorkout D s = some s1 ∧
      (workoutKey d.id, stringifyWorkout d) ∈ s1.storage.entries ∧
      jsonParse (stringifyWorkout d) = some d.toJVal ∧
      ∀ ex ∈ d.exercises, ∀ st ∈ ex.sets,
        st.toJVal.getField repsName = some (.str st.reps) ∧
        st.toJVal.getField weightName = some (.str st.weight) := by
  refine ⟨validateAndSave D d s, by simp only [validateAndSaveWorkout, hd], ?_,
    jsonParse_stringifyWorkout d, fun ex _ st _ => ⟨getField_reps st, getField_weight st⟩⟩
  simp only [validateAndSave, hv, saveWorkout, set_of_reliable s.storage hset,
    loadWorkouts_storage]
  exact mem_setEntry_self _ _ _

/-- Witness for C3 (amended): the `Bench Press` draft on an empty store. -/
theorem saved_workout_is_draft_witness :
    ∃ s1, validateAndSaveWorkout isoDate (draftingState emptyStore benchDraft) = some s1 ∧
      (workoutKey benchDraft.id, stringifyWorkout benchDraft) ∈ s1.storage.entries ∧
      jsonParse (stringifyWorkout benchDraft) = some benchDraft.toJVal ∧
      ∀ ex ∈ benchDraft.exercises, ∀ st ∈ ex.sets,
        st.toJVal.getField repsName = some (.str st.reps) ∧
        st.toJVal.getField weightName = some (.str st.weight) :=
  saved_workout_is_draft isoDate (draftingState emptyStore benchDraft) benchDraft rfl
    (by decide) rfl

/-- C3 (counterexample). For the draft with one exercise `Bench Press` and
one set of reps `10` and weight `20`, the text handed to the store holds
`"reps":"10","weight":"20"`: the saved set has the two strings, not the
numbers 10 and 20. -/
theorem saved_set_holds_strings :
    validationAlert benchDraft = none ∧
    (validateAndSaveWorkout isoDate (draftingState emptyStore benchDraft)).map
        (fun s => s.storage.entries) =
      some [("workout:1704067200000".toList,
        ("\x7b\"id\":\"1704067200000\",\"date\":\"2024-01-01T00:00:00.000Z\"," ++
          "\"exercises\":[\x7b\"id\":\"1704067200500\",\"name\":\"Bench Press\"," ++
          "\"sets\":[\x7b\"reps\":\"10\",\"weight\":\"20\"\x7d]\x7d]\x7d").toList)] ∧
    benchDraft.exercises.map (fun ex => ex.sets.map SetEntry.toJVal) =
      [[.obj [(repsName, .str "10".toList), (weightName, .str "20".toList)]]] ∧
    JVal.obj [(repsName, .str "10".toList), (weightName, .str "20".toList)] ≠
      JVal.obj [(repsName, .num false 10 0), (weightName, .num false 20 0)] := by
  refine ⟨by decide, by decide, rfl, ?_⟩
  intro h
  simp at h

/-- C4 (failing input, in general). For every draft that passes validation,
when `storage.set` fails the handler raises no alert and reports nothing to
its caller: the error is logged to the console, and the handler goes on to
show the home screen and to clear the draft. -/
theorem failed_write_clears_draft (D : DateFn) (s : AppState) (d : Workout)
    (hd : s.currentWorkout = some d) (hv : validationAlert d = none)
    (hfail : s.storage.setFails = true) :
    validateAndSaveWorkout D s =
      some { s with console := s.console ++ [.saveError], currentScreen := .home,
                    currentWorkout := none } := by
  simp [validateAndSaveWorkout, hd, validateAndSave, hv, saveWorkout, Storage.set, hfail]

/-- Witness for C4: the `Bench Press` draft on a store whose writes fail. -/
theorem failed_write_clears_draft_witness :
    validateAndSaveWorkout isoDate (draftingState failingWriteStore benchDraft) =
      some { draftingState failingWriteStore benchDraft with
        console := (draftingState failingWriteStore benchDraft).console ++ [.saveError],
        currentScreen := .home, currentWorkout := none } :=
  failed_write_clears_draft isoDate (draftingState failingWriteStore benchDraft) benchDraft rfl
    (by decide) rfl

/-- C5 (failing input, in general). On a store that is a map and whose calls
succeed, one value under a `workout:` key that `JSON.parse` rejects (a text
without surrogate escapes that does not parse) makes `loadWorkouts` log an
error and leave the listing as it was: the records that do parse are not
listed. -/
theorem corrupt_entry_blocks_listing (D : DateFn) (s : AppState)
    (hrel : s.storage.reliable) (hmap : s.storage.isMap) (e : Str × Str)
    (he : e ∈ s.storage.entries) (hp : workoutPrefix.isPrefixOf e.1 = true)
    (hbad : RejectedByJsonParse e.2) :
    loadWorkouts D s = { s with console := s.console ++ [.loadError] } := by
  have hf : fetchWorkout s.storage e.1 = none := by
    simp [fetchWorkout, get_of_mem s.storage hrel.2.1 hmap e he, hbad.2]
  have hk : e.1 ∈ (s.storage.entries.filter fun x => workoutPrefix.isPrefixOf x.1).map
      Prod.fst :=
    List.mem_map_of_mem Prod.fst (List.mem_filter.mpr ⟨he, hp⟩)
  simp [loadWorkouts, loadedListing, list_eq s.storage hrel.1,
    fetchAll_eq_none s.storage _ e.1 hk hf]

/-- Witness for C5: beside the stored `Bench Press` record there is a value
that is a lone opening brace. -/
theorem corrupt_entry_blocks_listing_witness :
    loadWorkouts isoDate (initialState corruptStore) =
      { initialState corruptStore with
        console := (initialState corruptStore).console ++ [.loadError] } :=
  corrupt_entry_blocks_listing isoDate (initialState corruptStore) ⟨rfl, rfl, rfl, rfl⟩
    (by unfold Storage.isMap; decide) (workoutKey squatWorkout.id, [cLBrace]) (by decide)
    (by decide) ⟨rfl, rfl⟩

theorem storedRecords_not_null (st : Storage)
    (h : ∀ e ∈ st.entries, workoutPrefix.isPrefixOf e.1 = true →
      ∀ j, jsonParse e.2 = some j → j.isNull = false) :
    (storedRecords st).filter (fun w => !w.isNull) = storedRecords st := by
  rw [List.filter_eq_self]
  intro j hj
  obtain ⟨e, he, hje⟩ := List.mem_filterMap.mp hj
  have := h e (List.mem_filter.mp he).1 (List.mem_filter.mp he).2 j hje
  simp [this]

/-- C6. For every store that is a map, whose calls succeed and whose values
under the `workout:` keys all parse to a record with a valid date,
`loadWorkouts` changes nothing but the listing, and the listing is a
permutation of the stored records in which, of every two adjacent records,
the earlier one's date is greater than or equal to the later one's. -/
theorem loadWorkouts_sorted_permutation (D : DateFn) (s : AppState)
    (hrel : s.storage.reliable) (hmap : s.storage.isMap)
    (hvalid : ∀ e ∈ s.storage.entries, workoutPrefix.isPrefixOf e.1 = true →
      ∃ j, jsonParse e.2 = some j ∧ j.isNull = false ∧ dateValue D j ≠ none) :
    loadWorkouts D s = { s with workouts := (loadWorkouts D s).workouts } ∧
    (loadWorkouts D s).workouts.Perm (storedRecords s.storage) ∧
    (loadWorkouts D s).workouts.Chain' (fun a b =>
      ∃ ta tb, dateValue D a = some ta ∧ dateValue D b = some tb ∧ tb ≤ ta) := by
  have hload := loadedListing_eq D s.storage hrel hmap
    (fun e he hp => (hvalid e he hp).imp fun j hj => hj.1)
  have hnn : (storedRecords s.storage).filter (fun w => !w.isNull) =
      storedRecords s.storage := by
    apply storedRecords_not_null
    intro e he hp j hj
    obtain ⟨j1, hj1, hn, _⟩ := hvalid e he hp
    rw [hj] at hj1
    cases hj1
    exact hn
  rw [hnn] at hload
  have hdates : ∀ w ∈ storedRecords s.storage, dateValue D w ≠ none := by
    intro w hw
    obtain ⟨e, he, hje⟩ := List.mem_filterMap.mp hw
    obtain ⟨j1, hj1, _, hd⟩ := hvalid e (List.mem_filter.mp he).1 (List.mem_filter.mp he).2
    rw [hje] at hj1
    cases hj1
    exact hd
  rw [loadWorkouts_of_listing D s _ hload]
  exact ⟨rfl, sortByDateDesc_perm D _, (sortByDateDesc_pairwise D _ hdates).chain'⟩

/-- Witness for C6: the store with the two example workouts. -/
theorem loadWorkouts_sorted_permutation_witness :
    loadWorkouts isoDate (initialState twoRecordStore) =
      { initialState twoRecordStore with
        workouts := (loadWorkouts isoDate (initialState twoRecordStore)).workouts } ∧
    (loadWorkouts isoDate (initialState twoRecordStore)).workouts.Perm
      (storedRecords (initialState twoRecordStore).storage) ∧
    (loadWorkouts isoDate (initialState twoRecordStore)).workouts.Chain' (fun a b =>
      ∃ ta tb, dateValue isoDate a = some ta ∧ dateValue isoDate b = some tb ∧ tb ≤ ta) :=
  loadWorkouts_sorted_permutation isoDate (initialState twoRecordStore) ⟨rfl, rfl, rfl, rfl⟩
    (by unfold Storage.isMap; decide)
    (by
      intro e he _
      have he2 : e = (workoutKey benchDraft.id, stringifyWorkout benchDraft) ∨
          e = (workoutKey squatWorkout.id, stringifyWorkout squatWorkout) := by
        simpa [initialState, twoRecordStore] using he
      rcases he2 with h | h
      · subst h
        exact ⟨benchDraft.toJVal, jsonParse_stringifyWorkout _, rfl, by decide⟩
      · subst h
        exact ⟨squatWorkout.toJVal, jsonParse_stringifyWorkout _, rfl, by decide⟩)

/-- C7 (counterexample). A store holds the record of the `Bench Press`
workout under the key `workout:copy`; it is a map, its calls succeed and the
value parses. After `saveWorkout` of that workout the listing holds two
records with its id. -/
theorem misfiled_record_listed_twice :
    misfiledStore.reliable ∧ misfiledStore.isMap ∧
    (∀ e ∈ misfiledStore.entries, ∃ j, jsonParse e.2 = some j) ∧
    ((saveWorkout isoDate benchDraft (initialState misfiledStore)).workouts.filter
      (hasId benchDraft.id)).length = 2 := by
  refine ⟨⟨rfl, rfl, rfl, rfl⟩, by unfold Storage.isMap; decide, ?_, by decide⟩
  intro e he
  have he2 : e = (workoutPrefix ++ "copy".toList, stringifyWorkout benchDraft) := by
    simpa [misfiledStore] using he
  subst he2
  exact ⟨benchDraft.toJVal, jsonParse_stringifyWorkout _⟩

/-- C7 (amended). Over a store that is a map and whose calls succeed, if
every other value under a `workout:` key parses to a record whose id is not
the id of `w`, then after `saveWorkout(w)` the listing holds exactly one record
with the id of `w`, and that record's id, date and exercises (names, set
order, reps and weight) are those of `w`, whether or not a record was stored
under that key before; no error is logged. -/
theorem saveWorkout_roundtrip (D : DateFn) (s : AppState) (w : Workout)
    (hrel : s.storage.reliable) (hmap : s.storage.isMap)
    (hother : ∀ e ∈ s.storage.entries, workoutPrefix.isPrefixOf e.1 = true →
      e.1 ≠ workoutKey w.id → ∃ j, jsonParse e.2 = some j ∧ hasId w.id j = false) :
    (saveWorkout D w s).workouts.filter (hasId w.id) = [w.toJVal] ∧
    w.toJVal.getField idName = some (.str w.id) ∧
    w.toJVal.getField dateName = some (.str w.date) ∧
    w.toJVal.getField exercisesName = some (.arr (w.exercises.map Exercise.toJVal)) ∧
    (saveWorkout D w s).console = s.console := by
  have hparse : ∀ e ∈ setEntry (workoutKey w.id) (stringifyWorkout w) s.storage.entries,
      workoutPrefix.isPrefixOf e.1 = true → ∃ j, jsonParse e.2 = some j := by
    intro e he hp
    rcases of_mem_setEntry _ _ _ hmap e he with h | h
    · subst h
      exact ⟨w.toJVal, jsonParse_stringifyWorkout w⟩
    · exact (hother e h.1 hp h.2).imp fun j hj => hj.1
  have hload := loadedListing_eq D
    { s.storage with entries := setEntry (workoutKey w.id) (stringifyWorkout w) s.storage.entries }
    hrel (nodup_keys_setEntry _ _ _ hmap) hparse
  have hsave : saveWorkout D w s =
      { s with
        storage := { s.storage with
          entries := setEntry (workoutKey w.id) (stringifyWorkout w) s.storage.entries },
        workouts := sortByDateDesc D ((storedRecords
          { s.storage with
            entries := setEntry (workoutKey w.id) (stringifyWorkout w)
              s.storage.entries }).filter fun j => !j.isNull) } := by
    rw [saveWorkout, set_of_reliable s.storage hrel.2.2.1]
    exact loadWorkouts_of_listing D _ _ hload
  refine ⟨?_, getField_id w, getField_date w, getField_exercises w, by rw [hsave]⟩
  rw [hsave]
  have hperm := (sortByDateDesc_perm D ((storedRecords
    { s.storage with
      entries := setEntry (workoutKey w.id) (stringifyWorkout w) s.storage.entries }).filter
        fun j => !j.isNull)).filter (hasId w.id)
  have hrec := recordsWithId_setEntry w.id (workoutKey w.id) (stringifyWorkout w) w.toJVal
    s.storage.entries hmap hother (workoutKey_hasPrefix w.id) (jsonParse_stringifyWorkout w)
    (toJVal_not_null w) (by rw [hasId_toJVal]; simp)
  unfold recordsWithId at hrec
  unfold storedRecords at hperm
  rw [hrec] at hperm
  exact List.perm_singleton.mp hperm

/-- Witness for C7 (amended): the `Squat` workout is saved to the store that
holds the `Bench Press` workout. -/
theorem saveWorkout_roundtrip_witness :
    (saveWorkout isoDate squatWorkout
      (initialState { emptyStore with
        entries := [(workoutKey benchDraft.id, stringifyWorkout benchDraft)] })).workouts.filter
        (hasId squatWorkout.id) = [squatWorkout.toJVal] ∧
    squatWorkout.toJVal.getField idName = some (.str squatWorkout.id) ∧
    squatWorkout.toJVal.getField dateName = some (.str squatWorkout.date) ∧
    squatWorkout.toJVal.getField exercisesName =
      some (.arr (squatWorkout.exercises.map Exercise.toJVal)) ∧
    (saveWorkout isoDate squatWorkout
      (initialState { emptyStore with
        entries := [(workoutKey benchDraft.id, stringifyWorkout benchDraft)] })).console =
      (initialState { emptyStore with
        entries := [(workoutKey benchDraft.id, stringifyWorkout benchDraft)] }).console :=
  saveWorkout_roundtrip isoDate
    (initialState { emptyStore with
      entries := [(workoutKey benchDraft.id, stringifyWorkout benchDraft)] })
    squatWorkout ⟨rfl, rfl, rfl, rfl⟩ (by unfold Storage.isMap; decide)
    (by
      intro e he _ _
      have he2 : e = (workoutKey benchDraft.id, stringifyWorkout benchDraft) := by
        simpa [initialState, emptyStore] using he
      subst he2
      exact ⟨benchDraft.toJVal, jsonParse_stringifyWorkout _, by decide⟩)

theorem delete_of_reliable (st : Storage) (h : st.deleteFails = false) (key : Str) :
    st.delete key = some { st with entries := st.entries.filter fun e => e.1 ≠ key } := by
  simp [Storage.delete, h]

theorem nodup_keys_filter (l : List (Str × Str)) (p : Str × Str → Bool)
    (h : (l.map Prod.fst).Nodup) : ((l.filter p).map Prod.fst).Nodup :=
  List.Nodup.sublist ((List.filter_sublist l).map Prod.fst) h

theorem deleteWorkout_eq (D : DateFn) (workoutId : Str) (s : AppState)
    (hrel : s.storage.reliable) (hmap : s.storage.isMap) (hw : WrittenBySave s.storage) :
    deleteWorkout D workoutId s =
      { s with
        storage := { s.storage with
          entries := s.storage.entries.filter fun e => e.1 ≠ workoutKey workoutId },
        workouts := sortByDateDesc D ((storedRecords
          { s.storage with
            entries := s.storage.entries.filter
              fun e => e.1 ≠ workoutKey workoutId }).filter fun j => !j.isNull),
        showDeleteModal := false, workoutToDelete := none } := by
  have hparse : ∀ e ∈ s.storage.entries.filter (fun e => e.1 ≠ workoutKey workoutId),
      workoutPrefix.isPrefixOf e.1 = true → ∃ j, jsonParse e.2 = some j := by
    intro e he _
    obtain ⟨w, hwe⟩ := hw e (List.mem_filter.mp he).1
    subst hwe
    exact ⟨w.toJVal, jsonParse_stringifyWorkout w⟩
  have hload := loadedListing_eq D
    { s.storage with
      entries := s.storage.entries.filter fun e => e.1 ≠ workoutKey workoutId }
    hrel (nodup_keys_filter _ _ hmap) hparse
  rw [deleteWorkout, delete_of_reliable s.storage hrel.2.2.2]
  simp only []
  rw [loadWorkouts_of_listing D _ _ hload]

/-- C8. Over a store that is a map, whose calls succeed and whose content was
written by `saveWorkout`: for every id, after `deleteWorkout(id)` the listing
holds no record with that id and still holds every other stored record; and
when no record is stored under that id, `deleteWorkout(id)` logs no error and
leaves the store content and the listing that `loadWorkouts` produces
unchanged. -/
theorem deleteWorkout_listing (D : DateFn) (s : AppState) (workoutId : Str)
    (hrel : s.storage.reliable) (hmap : s.storage.isMap) (hw : WrittenBySave s.storage) :
    (∀ j ∈ (deleteWorkout D workoutId s).workouts, hasId workoutId j = false) ∧
    (∀ w : Workout, (workoutKey w.id, stringifyWorkout w) ∈ s.storage.entries →
      w.id ≠ workoutId → w.toJVal ∈ (deleteWorkout D workoutId s).workouts) ∧
    ((∀ e ∈ s.storage.entries, e.1 ≠ workoutKey workoutId) →
      (deleteWorkout D workoutId s).storage = s.storage ∧
      (deleteWorkout D workoutId s).workouts = (loadWorkouts D s).workouts ∧
      (deleteWorkout D workoutId s).console = s.console ∧
      (deleteWorkout D workoutId s).alerts = s.alerts) := by
  rw [deleteWorkout_eq D workoutId s hrel hmap hw]
  refine ⟨?_, ?_, ?_⟩
  · intro j hj
    have hj1 := (mem_sortByDateDesc D _ j).mp hj
    obtain ⟨e, he, hje⟩ := List.mem_filterMap.mp (List.mem_filter.mp hj1).1
    have he1 := (List.mem_filter.mp he).1
    obtain ⟨w, hwe⟩ := hw e (List.mem_filter.mp he1).1
    have hkey : e.1 ≠ workoutKey workoutId := by
      simpa using (List.mem_filter.mp he1).2
    subst hwe
    rw [jsonParse_stringifyWorkout] at hje
    cases hje
    rw [hasId_toJVal]
    have : w.id ≠ workoutId := fun h => hkey (by rw [h])
    simpa using this
  · intro w hmem hne
    refine (mem_sortByDateDesc D _ _).mpr (List.mem_filter.mpr ⟨?_, by simp [toJVal_not_null]⟩)
    refine List.mem_filterMap.mpr ⟨(workoutKey w.id, stringifyWorkout w), ?_,
      jsonParse_stringifyWorkout w⟩
    refine List.mem_filter.mpr ⟨List.mem_filter.mpr ⟨hmem, ?_⟩, workoutKey_hasPrefix w.id⟩
    have : workoutKey w.id ≠ workoutKey workoutId := fun h => hne (workoutKey_injective _ _ h)
    simpa using this
  · intro hnone
    have hfilter : s.storage.entries.filter (fun e => e.1 ≠ workoutKey workoutId) =
        s.storage.entries := by
      rw [List.filter_eq_self]
      intro e he
      simpa using hnone e he
    have hparse : ∀ e ∈ s.storage.entries,
        workoutPrefix.isPrefixOf e.1 = true → ∃ j, jsonParse e.2 = some j := by
      intro e he _
      obtain ⟨w, hwe⟩ := hw e he
      subst hwe
      exact ⟨w.toJVal, jsonParse_stringifyWorkout w⟩
    rw [loadWorkouts_of_listing D s _ (loadedListing_eq D s.storage hrel hmap hparse)]
    simp only [hfilter]
    trivial

/-- Witness for C8: the store with the two example workouts, of which the
`Bench Press` workout is deleted. -/
theorem deleteWorkout_listing_witness :
    (∀ j ∈ (deleteWorkout isoDate benchDraft.id (initialState twoRecordStore)).workouts,
      hasId benchDraft.id j = false) ∧
    (∀ w : Workout,
      (workoutKey w.id, stringifyWorkout w) ∈ (initialState twoRecordStore).storage.entries →
      w.id ≠ benchDraft.id →
      w.toJVal ∈ (deleteWorkout isoDate benchDraft.id (initialState twoRecordStore)).workouts) ∧
    ((∀ e ∈ (initialState twoRecordStore).storage.entries, e.1 ≠ workoutKey benchDraft.id) →
      (deleteWorkout isoDate benchDraft.id (initialState twoRecordStore)).storage =
        (initialState twoRecordStore).storage ∧
      (deleteWorkout isoDate benchDraft.id (initialState twoRecordStore)).workouts =
        (loadWorkouts isoDate (initialState twoRecordStore)).workouts ∧
      (deleteWorkout isoDate benchDraft.id (initialState twoRecordStore)).console =
        (initialState twoRecordStore).console ∧
      (deleteWorkout isoDate benchDraft.id (initialState twoRecordStore)).alerts =
        (initialState twoRecordStore).alerts) :=
  deleteWorkout_listing isoDate (initialState twoRecordStore) benchDraft.id ⟨rfl, rfl, rfl, rfl⟩
    (by unfold Storage.isMap; decide)
    (by
      intro e he
      have he2 : e = (workoutKey benchDraft.id, stringifyWorkout benchDraft) ∨
          e = (workoutKey squatWorkout.id, stringifyWorkout squatWorkout) := by
        simpa [initialState, twoRecordStore] using he
      rcases he2 with h | h
      · exact ⟨benchDraft, h⟩
      · exact ⟨squatWorkout, h⟩)

/-! ## Exercise ids and the clock -/

theorem digitsValue_cons (c : Char) (ds : Str) :
    digitsValue 10 (c :: ds) = (digitValue c).getD 0 * 10 ^ ds.length + digitsValue 10 ds := by
  unfold digitsValue
  simp only [List.foldl_cons, Nat.zero_mul, Nat.zero_add]
  generalize (digitValue c).getD 0 = k
  have key : ∀ (l : Str) (a : Nat),
      List.foldl (fun acc c => acc * 10 + (digitValue c).getD 0) a l =
        a * 10 ^ l.length + List.foldl (fun acc c => acc * 10 + (digitValue c).getD 0) 0 l := by
    intro l
    induction l with
    | nil => intro a; simp
    | cons x xs ih =>
      intro a
      simp only [List.foldl_cons, List.length_cons, Nat.zero_mul, Nat.zero_add]
      rw [ih (a * 10 + (digitValue x).getD 0), ih ((digitValue x).getD 0)]
      ring
  exact key ds k

theorem digitValue_digitChar (k : Nat) (hk : k < 10) :
    (digitValue (Nat.digitChar k)).getD 0 = k := by
  interval_cases k <;> rfl

theorem digitsValue_toDigitsCore (fuel n : Nat) (ds : Str) (h : n < fuel) :
    digitsValue 10 (Nat.toDigitsCore 10 fuel n ds) = n * 10 ^ ds.length + digitsValue 10 ds := by
  induction fuel generalizing n ds with
  | zero => omega
  | succ fuel ih =>
    rw [Nat.toDigitsCore]
    by_cases h0 : n / 10 = 0
    · simp only [h0, if_true]
      rw [digitsValue_cons, digitValue_digitChar _ (Nat.mod_lt _ (by omega))]
      have : n % 10 = n := by omega
      rw [this]
    · simp only [h0, if_false]
      rw [ih (n / 10) _ (by omega), digitsValue_cons,
        digitValue_digitChar _ (Nat.mod_lt _ (by omega))]
      simp only [List.length_cons, pow_succ]
      have hn : n = n / 10 * 10 + n % 10 := by omega
      conv_rhs => rw [hn]
      ring

theorem digitsValue_natToString (n : Nat) : digitsValue 10 (natToString n) = n := by
  have h := digitsValue_toDigitsCore (n + 1) n [] (by omega)
  simpa [natToString, Nat.repr, Nat.toDigits, digitsValue] using h

theorem natToString_injective (a b : Nat) (h : natToString a = natToString b) : a = b := by
  have := congrArg (digitsValue 10) h
  rwa [digitsValue_natToString, digitsValue_natToString] at this

theorem ids_of_apply (op : DraftOp) (d : Workout) :
    (∃ t, op = .addExercise t ∧
      (op.apply d).exercises.map Exercise.id = d.exercises.map Exercise.id ++ [natToString t]) ∨
    ((∀ t, op ≠ .addExercise t) ∧
      ((op.apply d).exercises.map Exercise.id).Sublist (d.exercises.map Exercise.id)) := by
  cases op with
  | addExercise t => exact Or.inl ⟨t, rfl, by simp [DraftOp.apply, addExercise]⟩
  | updateExerciseName i n =>
    refine Or.inr ⟨fun t h => (by cases h), ?_⟩
    have : (updateExerciseName i n d).exercises.map Exercise.id = d.exercises.map Exercise.id := by
      simp only [updateExerciseName, List.map_map]
      apply List.map_congr_left
      intro e _
      by_cases h : e.id = i <;> simp [h]
    simp only [DraftOp.apply, this]
    exact List.Sublist.refl _
  | updateSet i k f v =>
    refine Or.inr ⟨fun t h => (by cases h), ?_⟩
    have : (updateSet i k f v d).exercises.map Exercise.id = d.exercises.map Exercise.id := by
      simp only [updateSet, List.map_map]
      apply List.map_congr_left
      intro e _
      by_cases h : e.id = i <;> simp [updatedExercise, h]
    simp only [DraftOp.apply, this]
    exact List.Sublist.refl _
  | addSet i =>
    refine Or.inr ⟨fun t h => (by cases h), ?_⟩
    have : (addSet i d).exercises.map Exercise.id = d.exercises.map Exercise.id := by
      simp only [addSet, List.map_map]
      apply List.map_congr_left
      intro e _
      by_cases h : e.id = i <;> simp [h]
    simp only [DraftOp.apply, this]
    exact List.Sublist.refl _
  | removeExercise i =>
    refine Or.inr ⟨fun t h => (by cases h), ?_⟩
    simp only [DraftOp.apply, removeExercise]
    exact (List.filter_sublist _).map _

theorem ids_nodup_of_distinct_readings (ops : List DraftOp) (d : Workout)
    (hnd : (d.exercises.map Exercise.id).Nodup)
    (hfresh : ∀ t ∈ clockReadings ops, natToString t ∉ d.exercises.map Exercise.id)
    (hclock : (clockReadings ops).Nodup) :
    ((runOps ops d).exercises.map Exercise.id).Nodup := by
  induction ops generalizing d with
  | nil => exact hnd
  | cons op rest ih =>
    have hrun : runOps (op :: rest) d = runOps rest (op.apply d) := rfl
    rw [hrun]
    rcases ids_of_apply op d with ⟨t, hop, hids⟩ | ⟨hop, hsub⟩
    · subst hop
      simp only [clockReadings, List.mem_cons, List.nodup_cons] at hfresh hclock
      refine ih _ ?_ ?_ hclock.2
      · rw [hids]
        exact List.Nodup.append hnd (List.nodup_singleton _)
          (by simpa using hfresh t (Or.inl rfl))
      · intro t1 ht1
        rw [hids, List.mem_append, not_or]
        refine ⟨hfresh t1 (Or.inr ht1), ?_⟩
        intro hmem
        have : t1 = t := natToString_injective _ _ (by simpa using hmem)
        exact hclock.1 (this ▸ ht1)
    · have hrd : clockReadings (op :: rest) = clockReadings rest := by
        cases op with
        | addExercise t => exact absurd rfl (hop t)
        | updateExerciseName i n => rfl
        | updateSet i k f v => rfl
        | addSet i => rfl
        | removeExercise i => rfl
      rw [hrd] at hfresh hclock
      exact ih _ (hnd.sublist hsub) (fun t ht hmem => hfresh t ht (hsub.subset hmem)) hclock

/-- The ids of the exercises of a draft are pairwise distinct when the
`addExercise` calls read pairwise different milliseconds, as they do with a
strictly increasing clock: for every draft reached from `startNewWorkout` by
such a sequence of editing calls. -/
theorem exercise_ids_distinct_of_distinct_readings (now : Nat) (isoNow : Str)
    (ops : List DraftOp) (hclock : (clockReadings ops).Nodup) :
    ((runOps ops (newDraft now isoNow)).exercises.map Exercise.id).Nodup :=
  ids_nodup_of_distinct_readings ops (newDraft now isoNow) (by simp [newDraft])
    (by simp [newDraft]) hclock

end WorkoutTracker
